import Mathlib

/-!
Verification of the SSR (structural search and replace) matching engine
from `crates/ra_ssr/src/matching.rs`.

The engine matches a search pattern (a syntax tree containing named
placeholders) against a candidate syntax node, in two phases: a cheap
non-recording first phase, and a recording second phase that builds the
`Match` result.  This file gives a shallow embedding of the data model and
of every matching routine of that module, and proves properties about the
embedding.

Modelling conventions:
- machine recursion in the Rust source (mutually recursive methods on
  `Matcher`) is embedded as fuel-indexed mutually recursive functions; a
  result of `none` means the fuel ran out, `some (Except.error _)` is a
  `MatchFailed`, and `some (Except.ok _)` is a successful match of the
  sub-problem;
- external collaborators (the `hir::Semantics` resolution service, the
  accessors of typed AST wrappers from `ra_syntax::ast`, and the resolved
  rule produced by `parsing.rs`/`resolving.rs`) are modelled as explicit
  data: functions for the resolution service, structural accessors for the
  AST wrappers, association lists for the hash maps;
- the debug "match fail reason" strings are not modelled (the thread-local
  recording flag defaults to off, in which case the source stores `None`
  as the reason); reasons never influence control flow.
-/

namespace Ssr

/-- Syntax node kinds.  Only the kinds that `matching.rs` inspects are named;
every other kind is `other n`. -/
inductive SyntaxKind where
  | comma
  | rParen
  | rCurly
  | rBrack
  | ident
  | whitespace
  | comment
  | recordExprFieldList
  | recordExprField
  | nameRef
  | tokenTree
  | path
  | pathSegment
  | typeArgList
  | paramList
  | callExpr
  | methodCallExpr
  | argListKind
  | literal
  | other (n : Nat)
deriving DecidableEq, Repr

/-- `SyntaxKind::is_trivia`: whitespace and comments. -/
def SyntaxKind.isTrivia : SyntaxKind → Bool
  | .whitespace => true
  | .comment => true
  | _ => false

/-- `is_closing_token` from `matching.rs`: `R_PAREN`, `R_CURLY` or `R_BRACK`. -/
def isClosingToken (kind : SyntaxKind) : Bool :=
  kind = SyntaxKind.rParen ∨ kind = SyntaxKind.rCurly ∨ kind = SyntaxKind.rBrack

/-- A half-open text range `[start, stop)` in a file, with offsets as `Nat`. -/
structure TextRange where
  start : Nat
  stop : Nat
deriving DecidableEq, Repr

/-- `TextRange::contains_range`: `self.start() <= other.start() && other.end() <= self.end()`. -/
def TextRange.containsRange (r other : TextRange) : Bool :=
  r.start ≤ other.start ∧ other.stop ≤ r.stop

/-- `TextRange::cover`: smallest range containing both. -/
def TextRange.cover (r other : TextRange) : TextRange :=
  ⟨min r.start other.start, max r.stop other.stop⟩

/-- `ra_db::FileRange`: a file id together with a text range. -/
structure FileRange where
  fileId : Nat
  range : TextRange
deriving DecidableEq, Repr

/-- A syntax token: kind, text, and its text range in the tree. -/
structure SyntaxToken where
  kind : SyntaxKind
  text : String
  range : TextRange
deriving DecidableEq, Repr

mutual
/-- A syntax node: a kind and a list of children (nodes and tokens). -/
inductive SyntaxNode : Type where
  | mk : SyntaxKind → List SyntaxElement → SyntaxNode
/-- A syntax element: a node or a token (`rowan::SyntaxElement`). -/
inductive SyntaxElement : Type where
  | node : SyntaxNode → SyntaxElement
  | token : SyntaxToken → SyntaxElement
end

/-- The kind of a node. -/
def SyntaxNode.kind : SyntaxNode → SyntaxKind
  | .mk k _ => k

/-- `children_with_tokens`: all children of a node, tokens included. -/
def SyntaxNode.childrenWithTokens : SyntaxNode → List SyntaxElement
  | .mk _ c => c

/-- The kind of an element. -/
def SyntaxElement.kind : SyntaxElement → SyntaxKind
  | .node n => n.kind
  | .token t => t.kind

/-- `SyntaxNode::children`: the child nodes only. -/
def SyntaxNode.children (n : SyntaxNode) : List SyntaxNode :=
  n.childrenWithTokens.filterMap fun e =>
    match e with
    | .node m => some m
    | .token _ => none

mutual
/-- `SyntaxNode::first_token`: the leftmost token in the subtree. -/
def SyntaxNode.firstToken : SyntaxNode → Option SyntaxToken
  | .mk _ children => firstTokenList children
/-- First token of a list of elements, if any. -/
def firstTokenList : List SyntaxElement → Option SyntaxToken
  | [] => none
  | e :: rest =>
    match SyntaxElement.firstToken e with
    | some t => some t
    | none => firstTokenList rest
/-- First token of an element. -/
def SyntaxElement.firstToken : SyntaxElement → Option SyntaxToken
  | .token t => some t
  | .node n => n.firstToken
end

mutual
/-- The text of a node: concatenation of all its token texts. -/
def SyntaxNode.text : SyntaxNode → String
  | .mk _ children => textList children
/-- Concatenated text of a list of elements. -/
def textList : List SyntaxElement → String
  | [] => ""
  | e :: rest => SyntaxElement.text e ++ textList rest
/-- The text of an element. -/
def SyntaxElement.text : SyntaxElement → String
  | .token t => t.text
  | .node n => n.text
end

mutual
/-- The text range of a node: cover of its children's ranges (an empty node
gets the degenerate range `[0, 0)`). -/
def SyntaxNode.textRange : SyntaxNode → TextRange
  | .mk _ children => textRangeList children
/-- Cover of the ranges of a list of elements. -/
def textRangeList : List SyntaxElement → TextRange
  | [] => ⟨0, 0⟩
  | [e] => SyntaxElement.textRange e
  | e :: rest => (SyntaxElement.textRange e).cover (textRangeList rest)
/-- The text range of an element. -/
def SyntaxElement.textRange : SyntaxElement → TextRange
  | .token t => t.range
  | .node n => n.textRange
end

mutual
/-- Structural equality test on nodes (models the hash-map key equality used
for the `FxHashMap<SyntaxNode, _>` tables of the resolved rule). -/
def SyntaxNode.beq : SyntaxNode → SyntaxNode → Bool
  | .mk k1 c1, .mk k2 c2 => k1 = k2 && beqElemList c1 c2
/-- Structural equality test on element lists. -/
def beqElemList : List SyntaxElement → List SyntaxElement → Bool
  | [], [] => true
  | e1 :: r1, e2 :: r2 => SyntaxElement.beq e1 e2 && beqElemList r1 r2
  | _, _ => false
/-- Structural equality test on elements. -/
def SyntaxElement.beq : SyntaxElement → SyntaxElement → Bool
  | .token t1, .token t2 => t1 = t2
  | .node n1, .node n2 => SyntaxNode.beq n1 n2
  | _, _ => false
end

/-- Lookup in an association list keyed by syntax nodes (models
`FxHashMap<SyntaxNode, α>::get`). -/
def lookupNode {α : Type} : List (SyntaxNode × α) → SyntaxNode → Option α
  | [], _ => none
  | (k, v) :: rest, n => if SyntaxNode.beq k n then some v else lookupNode rest n

/-- Insert into an association list with string keys, replacing an existing
entry for the same key (models `FxHashMap<String, α>::insert`). -/
def insertAssoc {α : Type} : List (String × α) → String → α → List (String × α)
  | [], k, v => [(k, v)]
  | (k', v') :: rest, k, v =>
    if k' = k then (k, v) :: rest else (k', v') :: insertAssoc rest k v

/-- Lookup in an association list with string keys. -/
def lookupAssoc {α : Type} : List (String × α) → String → Option α
  | [], _ => none
  | (k', v') :: rest, k => if k' = k then some v' else lookupAssoc rest k

/-- Remove an entry from an association list with string keys, returning the
removed value and the remaining list (models `FxHashMap::remove`). -/
def removeAssoc {α : Type} : List (String × α) → String → Option (α × List (String × α))
  | [], _ => none
  | (k', v') :: rest, k =>
    if k' = k then some (v', rest)
    else
      match removeAssoc rest k with
      | some (v, rest') => some (v, (k', v') :: rest')
      | none => none

/-- `parsing::NodeKind`: the node kinds a constraint can require.  Only
`Literal` exists in the source. -/
inductive NodeKind where
  | literal
deriving DecidableEq, Repr

/-- `parsing::Constraint`: a constraint on what a placeholder may bind. -/
inductive Constraint where
  | kind (k : NodeKind)
  | not (sub : Constraint)
deriving DecidableEq, Repr

/-- `parsing::Placeholder`: a placeholder's name and its constraints. -/
structure Placeholder where
  ident : String
  constraints : List Constraint
deriving DecidableEq, Repr

/-- `hir::PathResolution`: what a path resolves to.  `defn d` is the
`Def(ModuleDef)` case (module-level definitions, identified by a number);
`nonDef n` stands for every other resolution. -/
inductive PathResolution where
  | defn (d : Nat)
  | nonDef (n : Nat)
deriving DecidableEq, Repr

/-- `resolving::ResolvedPath`: the recorded semantic target of a pattern path. -/
structure ResolvedPath where
  resolution : PathResolution
deriving DecidableEq, Repr

/-- `resolving::ResolvedPattern`.  Modelled from the spec: the pattern tree, a
table of paths in the pattern whose semantic resolution must match, a table of
call expressions eligible for call-style equivalence (each mapped to its
pre-resolved function, identified by a number), and a table mapping
placeholder stand-in idents to placeholders (the source keeps this table in
the parsed pattern; `resolving.rs` and `parsing.rs` are outside the analyzed
module). -/
structure ResolvedPattern where
  node : SyntaxNode
  resolvedPaths : List (SyntaxNode × ResolvedPath)
  ufcsFunctionCalls : List (SyntaxNode × Nat)
  placeholdersByStandIn : List (String × Placeholder)

/-- `resolving::ResolvedRule`: pattern, optional template, rule index. -/
structure ResolvedRule where
  pattern : ResolvedPattern
  template : Option ResolvedPattern
  index : Nat

/-- The semantic-resolution service `hir::Semantics`, plus the tree-to-file
mapping it provides.  Modelled from the spec: given a path or method-call
node it returns the declaration it resolves to (or nothing); given a node it
returns its original (pre-macro-expansion) source range, its enclosing
module, and its ancestor count; from a module it can compute a
module-qualified path (`find_use_path`, identified by a number) to a
definition. -/
structure Semantics where
  resolvePath : SyntaxNode → Option PathResolution
  resolveMethodCall : SyntaxNode → Option Nat
  originalRange : SyntaxNode → FileRange
  scopeModule : SyntaxNode → Option Nat
  findUsePath : Nat → Nat → Option Nat
  ancestorsCount : SyntaxNode → Nat

/-- `MatchFailed`: failure signal with an optional debug reason.  The reason
is `none` unless the debug recording flag is active; the flag is off in this
model, so every failure carries `none`. -/
structure MatchFailed where
  reason : Option String
deriving DecidableEq, Repr

/-- `PlaceholderMatch`: what a placeholder bound.  `node` is set for
node-granularity bindings and `none` for token-run bindings inside macro
token trees.  (`inner_matches` is always created empty by this module and
only filled by the outer search driver, so it is not modelled.) -/
structure PlaceholderMatch where
  node : Option SyntaxNode
  range : FileRange

/-- `PlaceholderMatch::new`: node-granularity binding. -/
def PlaceholderMatch.new (node : SyntaxNode) (range : FileRange) : PlaceholderMatch :=
  { node := some node, range := range }

/-- `PlaceholderMatch::from_range`: range-only binding, no subtree handle. -/
def PlaceholderMatch.fromRange (range : FileRange) : PlaceholderMatch :=
  { node := none, range := range }

/-- `Match`: information about a successful match. -/
structure MatchResult where
  range : FileRange
  matchedNode : SyntaxNode
  placeholderValues : List (String × PlaceholderMatch)
  ignoredComments : List SyntaxToken
  ruleIndex : Nat
  depth : Nat
  renderedTemplatePaths : List (SyntaxNode × Nat)

/-- `Phase`: first (non-recording) or second (recording, carrying the
`Match` under construction). -/
inductive Phase where
  | first
  | second (m : MatchResult)

/-- The `Matcher` state: the semantic service, the optional restriction
range, and the rule. -/
structure Matcher where
  sema : Semantics
  restrictRange : Option FileRange
  rule : ResolvedRule

/-- `only_ident`: if the element contains nothing but an ident token, return
it. -/
def onlyIdent : SyntaxElement → Option SyntaxToken
  | .token t => if t.kind = SyntaxKind.ident then some t else none
  | .node (.mk _ [onlyChild]) => onlyIdent onlyChild
  | .node _ => none

/-- `ResolvedRule::get_placeholder` (modelled from the spec: lookup of the
ident's text in the rule's placeholder table). -/
def ResolvedRule.getPlaceholder (rule : ResolvedRule) (token : SyntaxToken) : Option Placeholder :=
  lookupAssoc rule.pattern.placeholdersByStandIn token.text

/-- `Matcher::get_placeholder`: `only_ident` then table lookup. -/
def Matcher.getPlaceholder (M : Matcher) (element : SyntaxElement) : Option Placeholder :=
  (onlyIdent element).bind fun ident => M.rule.getPlaceholder ident

/-- `Matcher::validate_range`: fail if the range is in a different file than
the restriction range or not contained in it. -/
def validateRange (restrict : Option FileRange) (range : FileRange) : Except MatchFailed Unit :=
  match restrict with
  | some r =>
    if r.fileId ≠ range.fileId ∨ ¬ r.range.containsRange range.range then
      .error ⟨none⟩
    else
      .ok ()
  | none => .ok ()

/-- `NodeKind::matches`: `Literal` requires the node to be castable to
`ast::Literal`, i.e. of kind `LITERAL`. -/
def NodeKind.matches (k : NodeKind) (node : SyntaxNode) : Except MatchFailed Unit :=
  match k with
  | .literal => if node.kind = SyntaxKind.literal then .ok () else .error ⟨none⟩

/-- `Matcher::check_constraint`. -/
def checkConstraint : Constraint → SyntaxNode → Except MatchFailed Unit
  | .kind k, code => k.matches code
  | .not sub, code =>
    match checkConstraint sub code with
    | .ok _ => .error ⟨none⟩
    | .error _ => .ok ()

/-- The constraint loop of the placeholder branch in `attempt_match_node`:
check each constraint in turn, failing on the first violation. -/
def checkConstraints : List Constraint → SyntaxNode → Except MatchFailed Unit
  | [], _ => .ok ()
  | c :: rest, code =>
    match checkConstraint c code with
    | .ok _ => checkConstraints rest code
    | .error e => .error e

/-- Insert a placeholder value into the match under construction
(`placeholder_values.insert`, hash-map semantics). -/
def MatchResult.insertPlaceholderValue (m : MatchResult) (ident : String)
    (pm : PlaceholderMatch) : MatchResult :=
  { m with placeholderValues := insertAssoc m.placeholderValues ident pm }

/-- `Phase::record_ignored_comments`: in the second phase, push comment
tokens onto the ignored-comment list. -/
def Phase.recordIgnoredComments (ph : Phase) (token : SyntaxToken) : Phase :=
  if token.kind = SyntaxKind.comment then
    match ph with
    | .second m => .second { m with ignoredComments := m.ignoredComments ++ [token] }
    | .first => .first
  else ph

/-- `Phase::next_non_trivial`: advance over the code children, skipping
trivia and recording comments; returns the updated phase, the next
non-trivia element (if any) and the remaining children. -/
def Phase.nextNonTrivial (ph : Phase) :
    List SyntaxElement → Phase × Option SyntaxElement × List SyntaxElement
  | [] => (ph, none, [])
  | e :: rest =>
    match e with
    | .token t =>
      let ph' := ph.recordIgnoredComments t
      if t.kind.isTrivia then ph'.nextNonTrivial rest else (ph', some e, rest)
    | .node _ => (ph, some e, rest)

/-- `Matcher::attempt_match_token`: match one code token against the front
of the pattern, with the trailing-comma tolerances; returns the updated
phase and remaining pattern. -/
def attemptMatchToken (ph : Phase) (pat : List SyntaxElement) (code : SyntaxToken) :
    Except MatchFailed (Phase × List SyntaxElement) :=
  let ph := ph.recordIgnoredComments code
  if code.kind.isTrivia then .ok (ph, pat)
  else
    -- Peek at the pattern for the two trailing-comma tolerances.
    match pat with
    | SyntaxElement.token p :: rest =>
      if code.kind = SyntaxKind.comma ∧ isClosingToken p.kind then
        -- Trailing comma in the code: accept without advancing the pattern.
        .ok (ph, pat)
      else
        -- Comma in the pattern before a closing token in the code: skip it.
        let pat' := if p.kind = SyntaxKind.comma ∧ isClosingToken code.kind then rest else pat
        match pat' with
        | SyntaxElement.token q :: rest' =>
          if q.kind = code.kind ∧ q.text = code.text then .ok (ph, rest')
          else .error ⟨none⟩
        | SyntaxElement.node _ :: _ => .error ⟨none⟩
        | [] => .error ⟨none⟩
    | SyntaxElement.node _ :: _ => .error ⟨none⟩
    | [] => .error ⟨none⟩

/-- `PatternIterator::new` composed with the iterator's trivia filter: the
non-trivia children of the pattern node. -/
def patternChildren (parent : SyntaxNode) : List SyntaxElement :=
  parent.childrenWithTokens.filter fun e => ¬ e.kind.isTrivia

/-- `ast::RecordExprField::cast`: succeeds on `RECORD_EXPR_FIELD` nodes.
Modelled from the spec: a typed AST accessor from the external syntax
library. -/
def castRecordExprField (n : SyntaxNode) : Option SyntaxNode :=
  if n.kind = SyntaxKind.recordExprField then some n else none

/-- `ast::RecordExprField::field_name`: the field's name.  Modelled from the
spec ("the candidate's fields are indexed by field name"): the first
`NAME_REF` child node, whose text is the field name. -/
def fieldName (n : SyntaxNode) : Option SyntaxNode :=
  n.children.find? fun c => c.kind = SyntaxKind.nameRef

/-- Build the `fields_by_name` map of `attempt_match_record_field_list`:
iterate the candidate's child nodes, index record fields by the text of
their name. -/
def buildFieldsByName (code : SyntaxNode) : List (String × SyntaxNode) :=
  code.children.foldl
    (fun acc child =>
      match castRecordExprField child with
      | some record =>
        match fieldName record with
        | some name => insertAssoc acc name.text child
        | none => acc
      | none => acc)
    []

/-- `first_child_or_token`: the first child element of a node. -/
def SyntaxNode.firstChildOrToken (n : SyntaxNode) : Option SyntaxElement :=
  n.childrenWithTokens.head?

/-- `ast::ArgListOwner::arg_list`: the `ARG_LIST` child of a call.  Modelled
from the spec: a typed AST accessor from the external syntax library. -/
def argList (n : SyntaxNode) : Option SyntaxNode :=
  n.children.find? fun c => c.kind = SyntaxKind.argListKind

/-- `ast::ArgList::args`: the argument expressions, i.e. the child nodes of
the arg list.  Modelled from the spec: a typed AST accessor. -/
def argListArgs (n : SyntaxNode) : List SyntaxNode :=
  n.children

/-- `ast::MethodCallExpr::expr`: the receiver expression, i.e. the first
child node of the method call.  Modelled from the spec ("the candidate's
receiver expression"). -/
def methodCallReceiver (n : SyntaxNode) : Option SyntaxNode :=
  n.children.head?

/-- `ast::Path::segment`: the `PATH_SEGMENT` child.  Modelled from the spec:
a typed AST accessor. -/
def pathSegment (n : SyntaxNode) : Option SyntaxNode :=
  n.children.find? fun c => c.kind = SyntaxKind.pathSegment

/-- `ast::PathSegment::type_arg_list`: the `TYPE_ARG_LIST` child.  Modelled
from the spec: a typed AST accessor. -/
def segmentTypeArgList (n : SyntaxNode) : Option SyntaxNode :=
  n.children.find? fun c => c.kind = SyntaxKind.typeArgList

/-- `ast::PathSegment::param_list`: the `PARAM_LIST` child.  Modelled from
the spec: a typed AST accessor. -/
def segmentParamList (n : SyntaxNode) : Option SyntaxNode :=
  n.children.find? fun c => c.kind = SyntaxKind.paramList

/-- The text of the next pattern element as seen by the token-tree
placeholder scan: a token's text, or a node's first token's text
(`next_pattern_token` in `attempt_match_token_tree`). -/
def nextPatternTokenText : Option SyntaxElement → Option String
  | none => none
  | some (SyntaxElement.token t) => some t.text
  | some (SyntaxElement.node n) => n.firstToken.map fun t => t.text

/-- Record a token-run placeholder binding in the second phase: a range-only
`PlaceholderMatch` whose range covers the first through the last matched
element, in the file of the enclosing macro call. -/
def Phase.recordTokenRange (ph : Phase) (placeholder : Placeholder) (fileId : Nat)
    (first last : SyntaxElement) : Phase :=
  match ph with
  | .second m =>
    .second (m.insertPlaceholderValue placeholder.ident
      (PlaceholderMatch.fromRange ⟨fileId, first.textRange.cover last.textRange⟩))
  | .first => .first

mutual

/-- `Matcher::attempt_match_node`: placeholder handling, call-style (UFCS)
equivalence, kind check, then kind dispatch. -/
def attemptMatchNode (M : Matcher) (fuel : Nat) (ph : Phase) (pattern code : SyntaxNode) :
    Option (Except MatchFailed Phase) :=
  match fuel with
  | 0 => none
  | fuel + 1 =>
    match M.getPlaceholder (SyntaxElement.node pattern) with
    | some placeholder =>
      match checkConstraints placeholder.constraints code with
      | .error e => some (.error e)
      | .ok _ =>
        match ph with
        | .second m =>
          let originalRange := M.sema.originalRange code
          match validateRange M.restrictRange originalRange with
          | .error e => some (.error e)
          | .ok _ =>
            some (.ok (.second (m.insertPlaceholderValue placeholder.ident
              (PlaceholderMatch.new code originalRange))))
        | .first => some (.ok .first)
    | none =>
      match lookupNode M.rule.pattern.ufcsFunctionCalls pattern with
      | some patternFunction =>
        if pattern.kind = SyntaxKind.callExpr ∧ code.kind = SyntaxKind.methodCallExpr then
          attemptMatchUfcs M fuel ph pattern code patternFunction
        else
          attemptMatchNodeKinded M fuel ph pattern code
      | none => attemptMatchNodeKinded M fuel ph pattern code

/-- The tail of `attempt_match_node` after the placeholder and UFCS checks:
require equal kinds, then dispatch on the code's kind. -/
def attemptMatchNodeKinded (M : Matcher) (fuel : Nat) (ph : Phase) (pattern code : SyntaxNode) :
    Option (Except MatchFailed Phase) :=
  match fuel with
  | 0 => none
  | fuel + 1 =>
    if pattern.kind ≠ code.kind then some (.error ⟨none⟩)
    else
      match code.kind with
      | .recordExprFieldList => attemptMatchRecordFieldList M fuel ph pattern code
      | .tokenTree => attemptMatchTokenTree M fuel ph pattern code
      | .path => attemptMatchPath M fuel ph pattern code
      | _ => attemptMatchNodeChildren M fuel ph pattern code

/-- `Matcher::attempt_match_node_children`: ordered sequence alignment of
the pattern's non-trivia children against the code's children. -/
def attemptMatchNodeChildren (M : Matcher) (fuel : Nat) (ph : Phase) (pattern code : SyntaxNode) :
    Option (Except MatchFailed Phase) :=
  match fuel with
  | 0 => none
  | fuel + 1 =>
    attemptMatchSequences M fuel ph (patternChildren pattern) code.childrenWithTokens

/-- `Matcher::attempt_match_sequences`: the ordered alignment loop. -/
def attemptMatchSequences (M : Matcher) (fuel : Nat) (ph : Phase)
    (pat codeElems : List SyntaxElement) : Option (Except MatchFailed Phase) :=
  match fuel with
  | 0 => none
  | fuel + 1 =>
    match ph.nextNonTrivial codeElems with
    | (ph1, none, _) =>
      match pat with
      | [] => some (.ok ph1)
      | _ :: _ => some (.error ⟨none⟩)
    | (ph1, some (SyntaxElement.token c), rest) =>
      match attemptMatchToken ph1 pat c with
      | .error e => some (.error e)
      | .ok (ph2, pat') => attemptMatchSequences M fuel ph2 pat' rest
    | (ph1, some (SyntaxElement.node c), rest) =>
      match pat with
      | SyntaxElement.node p :: patRest =>
        match attemptMatchNode M fuel ph1 p c with
        | none => none
        | some (.error e) => some (.error e)
        | some (.ok ph2) => attemptMatchSequences M fuel ph2 patRest rest
      | _ :: _ => some (.error ⟨none⟩)
      | [] => some (.error ⟨none⟩)

/-- `Matcher::attempt_match_record_field_list`: index the candidate fields
by name, then run the per-pattern-field loop. -/
def attemptMatchRecordFieldList (M : Matcher) (fuel : Nat) (ph : Phase)
    (pattern code : SyntaxNode) : Option (Except MatchFailed Phase) :=
  match fuel with
  | 0 => none
  | fuel + 1 =>
    recordFieldLoop M fuel ph pattern code pattern.childrenWithTokens (buildFieldsByName code)

/-- The field loop of `attempt_match_record_field_list`: for each pattern
field, fall back to ordered matching if its name is a placeholder, otherwise
consume the same-named candidate field from the index and match it; any
candidate field left in the index at the end is a failure. -/
def recordFieldLoop (M : Matcher) (fuel : Nat) (ph : Phase) (pattern code : SyntaxNode)
    (patElems : List SyntaxElement) (fields : List (String × SyntaxNode)) :
    Option (Except MatchFailed Phase) :=
  match fuel with
  | 0 => none
  | fuel + 1 =>
    match patElems with
    | [] =>
      match fields with
      | [] => some (.ok ph)
      | _ :: _ => some (.error ⟨none⟩)
    | SyntaxElement.node p :: rest =>
      match p.firstChildOrToken with
      | some nameElement =>
        if (M.getPlaceholder nameElement).isSome then
          attemptMatchNodeChildren M fuel ph pattern code
        else
          match onlyIdent nameElement with
          | some ident =>
            match removeAssoc fields ident.text with
            | none => some (.error ⟨none⟩)
            | some (codeRecord, fields') =>
              match attemptMatchNode M fuel ph p codeRecord with
              | none => none
              | some (.error e) => some (.error e)
              | some (.ok ph1) => recordFieldLoop M fuel ph1 pattern code rest fields'
          | none => recordFieldLoop M fuel ph pattern code rest fields
      | none => recordFieldLoop M fuel ph pattern code rest fields
    | SyntaxElement.token _ :: rest => recordFieldLoop M fuel ph pattern code rest fields

/-- `Matcher::attempt_match_token_tree`: token-by-token matching inside a
macro-argument token tree, with greedy placeholder token-run capture. -/
def attemptMatchTokenTree (M : Matcher) (fuel : Nat) (ph : Phase)
    (pattern code : SyntaxNode) : Option (Except MatchFailed Phase) :=
  match fuel with
  | 0 => none
  | fuel + 1 =>
    attemptMatchTokenTreeGo M fuel ph (patternChildren pattern) code.childrenWithTokens
      (M.sema.originalRange code).fileId

/-- The main loop of `attempt_match_token_tree` over the candidate's
children. -/
def attemptMatchTokenTreeGo (M : Matcher) (fuel : Nat) (ph : Phase)
    (pat children : List SyntaxElement) (fileId : Nat) :
    Option (Except MatchFailed Phase) :=
  match fuel with
  | 0 => none
  | fuel + 1 =>
    match children with
    | [] =>
      match pat with
      | [] => some (.ok ph)
      | _ :: _ => some (.error ⟨none⟩)
    | child :: rest =>
      match pat.head?.bind fun p => M.getPlaceholder p with
      | some placeholder =>
        let patAfter := pat.tail
        let nextTok := nextPatternTokenText patAfter.head?
        match scanPlaceholder M fuel ph patAfter rest nextTok child with
        | none => none
        | some (.error e) => some (.error e)
        | some (.ok (ph1, pat', rest', lastMatched)) =>
          let ph2 := ph1.recordTokenRange placeholder fileId child lastMatched
          attemptMatchTokenTreeGo M fuel ph2 pat' rest' fileId
      | none =>
        match child with
        | SyntaxElement.token t =>
          match attemptMatchToken ph pat t with
          | .error e => some (.error e)
          | .ok (ph1, pat') => attemptMatchTokenTreeGo M fuel ph1 pat' rest fileId
        | SyntaxElement.node n =>
          match pat with
          | SyntaxElement.node p :: patRest =>
            match attemptMatchTokenTree M fuel ph p n with
            | none => none
            | some (.error e) => some (.error e)
            | some (.ok ph1) => attemptMatchTokenTreeGo M fuel ph1 patRest rest fileId
          | SyntaxElement.token _ :: _ => some (.error ⟨none⟩)
          | [] => some (.error ⟨none⟩)

/-- The inner scan of the placeholder branch of
`attempt_match_token_tree`: read code elements until one is reached whose
text (for a token) or first token's text (for a subtree) equals
`next_pattern_token`, or the stream ends; returns the updated phase, the
remaining pattern, the remaining children and the last matched element. -/
def scanPlaceholder (M : Matcher) (fuel : Nat) (ph : Phase)
    (pat children : List SyntaxElement) (nextTok : Option String) (last : SyntaxElement) :
    Option (Except MatchFailed (Phase × List SyntaxElement × List SyntaxElement × SyntaxElement)) :=
  match fuel with
  | 0 => none
  | fuel + 1 =>
    match children with
    | [] => some (.ok (ph, pat, [], last))
    | next :: rest =>
      match next with
      | SyntaxElement.token t =>
        if (some t.text : Option String) = nextTok then
          some (.ok (ph, pat.tail, rest, last))
        else
          scanPlaceholder M fuel ph pat rest nextTok next
      | SyntaxElement.node n =>
        match n.firstToken with
        | some firstTok =>
          if (some firstTok.text : Option String) = nextTok then
            match pat with
            | SyntaxElement.node p :: patRest =>
              match attemptMatchTokenTree M fuel ph p n with
              | none => none
              | some (.error e) => some (.error e)
              | some (.ok ph1) => some (.ok (ph1, patRest, rest, last))
            | _ =>
              scanPlaceholder M fuel ph pat.tail rest nextTok next
          else
            scanPlaceholder M fuel ph pat rest nextTok next
        | none => scanPlaceholder M fuel ph pat rest nextTok next

/-- `Matcher::attempt_match_path`: for a pattern path with a recorded
semantic target, match the segment's type-argument and parameter lists
structurally and (second phase only) compare the candidate path's
resolution against the recorded target; otherwise fall back to generic
child matching. -/
def attemptMatchPath (M : Matcher) (fuel : Nat) (ph : Phase) (pattern code : SyntaxNode) :
    Option (Except MatchFailed Phase) :=
  match fuel with
  | 0 => none
  | fuel + 1 =>
    match lookupNode M.rule.pattern.resolvedPaths pattern with
    | some patternResolved =>
      let segmentsStep : Option (Except MatchFailed Phase) :=
        match pathSegment pattern, pathSegment code with
        | some patternSegment, some codeSegment =>
          match attemptMatchOpt M fuel ph (segmentTypeArgList patternSegment)
              (segmentTypeArgList codeSegment) with
          | none => none
          | some (.error e) => some (.error e)
          | some (.ok ph1) =>
            attemptMatchOpt M fuel ph1 (segmentParamList patternSegment)
              (segmentParamList codeSegment)
        | _, _ => some (.ok ph)
      match segmentsStep with
      | none => none
      | some (.error e) => some (.error e)
      | some (.ok ph1) =>
        match ph1 with
        | .second m =>
          match M.sema.resolvePath code with
          | none => some (.error ⟨none⟩)
          | some resolution =>
            if patternResolved.resolution ≠ resolution then some (.error ⟨none⟩)
            else some (.ok (.second m))
        | .first => some (.ok .first)
    | none => attemptMatchNodeChildren M fuel ph pattern code

/-- `Matcher::attempt_match_opt`: both sides present are matched, both
absent succeed, one-sided presence fails. -/
def attemptMatchOpt (M : Matcher) (fuel : Nat) (ph : Phase)
    (pat code : Option SyntaxNode) : Option (Except MatchFailed Phase) :=
  match fuel with
  | 0 => none
  | fuel + 1 =>
    match pat, code with
    | some p, some c => attemptMatchNode M fuel ph p c
    | none, none => some (.ok ph)
    | some _, none => some (.error ⟨none⟩)
    | none, some _ => some (.error ⟨none⟩)

/-- `Matcher::attempt_match_ufcs`: resolve the candidate method call and
require the pattern's pre-resolved function; match the pattern's first
argument against the receiver, then zip-match the remaining arguments. -/
def attemptMatchUfcs (M : Matcher) (fuel : Nat) (ph : Phase) (pattern code : SyntaxNode)
    (patternFunction : Nat) : Option (Except MatchFailed Phase) :=
  match fuel with
  | 0 => none
  | fuel + 1 =>
    match M.sema.resolveMethodCall code with
    | none => some (.error ⟨none⟩)
    | some codeResolvedFunction =>
      if patternFunction ≠ codeResolvedFunction then some (.error ⟨none⟩)
      else
        match argList pattern with
        | none => some (.error ⟨none⟩)
        | some patternArgList =>
          let patternArgs := argListArgs patternArgList
          match attemptMatchOpt M fuel ph patternArgs.head? (methodCallReceiver code) with
          | none => none
          | some (.error e) => some (.error e)
          | some (.ok ph1) =>
            match argList code with
            | none => some (.error ⟨none⟩)
            | some codeArgList =>
              ufcsArgLoop M fuel ph1 patternArgs.tail (argListArgs codeArgList)

/-- The argument zip loop at the end of `attempt_match_ufcs`: both lists
must end together; each pair is matched via `attempt_match_opt`. -/
def ufcsArgLoop (M : Matcher) (fuel : Nat) (ph : Phase)
    (patternArgs codeArgs : List SyntaxNode) : Option (Except MatchFailed Phase) :=
  match fuel with
  | 0 => none
  | fuel + 1 =>
    match patternArgs, codeArgs with
    | [], [] => some (.ok ph)
    | pa, ca =>
      match attemptMatchOpt M fuel ph pa.head? ca.head? with
      | none => none
      | some (.error e) => some (.error e)
      | some (.ok ph1) => ufcsArgLoop M fuel ph1 pa.tail ca.tail

end

/-- The loop of `Match::render_template_paths`: for every template path that
resolved to a module-level definition, compute the module-qualified path
visible from `module`, failing if none exists. -/
def renderTemplateLoop (sema : Semantics) (module : Nat) :
    List (SyntaxNode × ResolvedPath) → MatchResult → Except MatchFailed MatchResult
  | [], m => .ok m
  | (path, resolvedPath) :: rest, m =>
    match resolvedPath.resolution with
    | .defn moduleDef =>
      match sema.findUsePath module moduleDef with
      | none => .error ⟨none⟩
      | some modPath =>
        renderTemplateLoop sema module rest
          { m with renderedTemplatePaths := m.renderedTemplatePaths ++ [(path, modPath)] }
    | .nonDef _ => renderTemplateLoop sema module rest m

/-- `Match::render_template_paths`: require an enclosing module for the
matched node, then render every resolved template path. -/
def renderTemplatePaths (m : MatchResult) (template : ResolvedPattern)
    (sema : Semantics) : Except MatchFailed MatchResult :=
  match sema.scopeModule m.matchedNode with
  | none => .error ⟨none⟩
  | some module => renderTemplateLoop sema module template.resolvedPaths m

/-- `Matcher::try_match`: run the first (non-recording) phase, validate the
candidate's original range against the restriction range, run the second
(recording) phase, set the depth, and render the template paths if the rule
has a template. -/
def tryMatch (rule : ResolvedRule) (code : SyntaxNode) (restrictRange : Option FileRange)
    (sema : Semantics) (fuel : Nat) : Option (Except MatchFailed MatchResult) :=
  let M : Matcher := ⟨sema, restrictRange, rule⟩
  match attemptMatchNode M fuel .first rule.pattern.node code with
  | none => none
  | some (.error e) => some (.error e)
  | some (.ok _) =>
    match validateRange restrictRange (sema.originalRange code) with
    | .error e => some (.error e)
    | .ok _ =>
      let theMatch : MatchResult :=
        { range := sema.originalRange code
          matchedNode := code
          placeholderValues := []
          ignoredComments := []
          ruleIndex := rule.index
          depth := 0
          renderedTemplatePaths := [] }
      match attemptMatchNode M fuel (.second theMatch) rule.pattern.node code with
      | none => none
      | some (.error e) => some (.error e)
      | some (.ok ph) =>
        let m :=
          match ph with
          | .second m => m
          | .first => theMatch
        let m := { m with depth := sema.ancestorsCount code }
        match rule.template with
        | some template =>
          match renderTemplatePaths m template sema with
          | .error e => some (.error e)
          | .ok m' => some (.ok m')
        | none => some (.ok m)

/-! ### Concrete fixtures used by witnesses and counterexamples -/

/-- A trivial resolution service: nothing resolves, every node's original
range is its text range in file 1, every node is in module 0 with ancestor
count 0. -/
def plainSema : Semantics :=
  { resolvePath := fun _ => none
    resolveMethodCall := fun _ => none
    originalRange := fun n => ⟨1, n.textRange⟩
    scopeModule := fun _ => some 0
    findUsePath := fun _ _ => some 0
    ancestorsCount := fun _ => 0 }

/-- Pattern `foo($a)`: a call expression with path `foo` and a single
placeholder argument. -/
def patFooA : SyntaxNode :=
  .mk .callExpr
    [ .node (.mk .path [.node (.mk .pathSegment [.node (.mk .nameRef
        [.token ⟨.ident, "foo", ⟨0, 3⟩⟩])])])
    , .node (.mk .argListKind
        [ .token ⟨.other 1, "(", ⟨3, 4⟩⟩
        , .node (.mk (.other 2) [.token ⟨.ident, "a", ⟨4, 5⟩⟩])
        , .token ⟨.rParen, ")", ⟨5, 6⟩⟩])]

/-- Pattern `foo($a,)`: like `patFooA` with a trailing comma. -/
def patFooATrailing : SyntaxNode :=
  .mk .callExpr
    [ .node (.mk .path [.node (.mk .pathSegment [.node (.mk .nameRef
        [.token ⟨.ident, "foo", ⟨0, 3⟩⟩])])])
    , .node (.mk .argListKind
        [ .token ⟨.other 1, "(", ⟨3, 4⟩⟩
        , .node (.mk (.other 2) [.token ⟨.ident, "a", ⟨4, 5⟩⟩])
        , .token ⟨.comma, ",", ⟨5, 6⟩⟩
        , .token ⟨.rParen, ")", ⟨6, 7⟩⟩])]

/-- Candidate `foo(1)`. -/
def codeFoo1 : SyntaxNode :=
  .mk .callExpr
    [ .node (.mk .path [.node (.mk .pathSegment [.node (.mk .nameRef
        [.token ⟨.ident, "foo", ⟨40, 43⟩⟩])])])
    , .node (.mk .argListKind
        [ .token ⟨.other 1, "(", ⟨43, 44⟩⟩
        , .node (.mk .literal [.token ⟨.other 9, "1", ⟨44, 45⟩⟩])
        , .token ⟨.rParen, ")", ⟨45, 46⟩⟩])]

/-- Candidate `foo(1,)`: like `codeFoo1` with a trailing comma. -/
def codeFoo1Trailing : SyntaxNode :=
  .mk .callExpr
    [ .node (.mk .path [.node (.mk .pathSegment [.node (.mk .nameRef
        [.token ⟨.ident, "foo", ⟨40, 43⟩⟩])])])
    , .node (.mk .argListKind
        [ .token ⟨.other 1, "(", ⟨43, 44⟩⟩
        , .node (.mk .literal [.token ⟨.other 9, "1", ⟨44, 45⟩⟩])
        , .token ⟨.comma, ",", ⟨45, 46⟩⟩
        , .token ⟨.rParen, ")", ⟨46, 47⟩⟩])]

/-- A rule whose pattern is `pat`, with placeholder `$a`, no resolved paths,
no UFCS calls and no template. -/
def plainRule (pat : SyntaxNode) : ResolvedRule :=
  { pattern :=
      { node := pat
        resolvedPaths := []
        ufcsFunctionCalls := []
        placeholdersByStandIn := [("a", ⟨"a", []⟩)] }
    template := none
    index := 0 }

/-- The matcher context for `plainRule pat` with no restriction range. -/
def plainMatcher (pat : SyntaxNode) : Matcher :=
  ⟨plainSema, none, plainRule pat⟩

/-! ### C6: restriction-range violations always reject -/

/-- Claim C6: for every match attempt made with a restriction range
supplied, if the candidate node's original source range lies in a different
file than the restriction range or is not contained within it, the match
fails, regardless of whether the structural comparison succeeded. -/
theorem c6_restrict_range_rejects (rule : ResolvedRule) (code : SyntaxNode)
    (sema : Semantics) (fuel : Nat) (rr : FileRange)
    (h : rr.fileId ≠ (sema.originalRange code).fileId ∨
      ¬ rr.range.containsRange (sema.originalRange code).range) :
    ∀ m, tryMatch rule code (some rr) sema fuel ≠ some (.ok m) := by
  intro m
  unfold tryMatch
  cases hm : attemptMatchNode ⟨sema, some rr, rule⟩ fuel .first rule.pattern.node code with
  | none => simp [hm]
  | some r =>
    cases r with
    | error e => simp [hm]
    | ok ph =>
      have hv : validateRange (some rr) (sema.originalRange code) = .error ⟨none⟩ := by
        unfold validateRange
        exact if_pos h
      simp [hm, hv]

/-- Witness for C6: a concrete rule, candidate and restriction range in a
different file, rejected by `tryMatch`. -/
theorem c6_restrict_range_rejects_witness :
    tryMatch (plainRule patFooA) codeFoo1 (some ⟨2, ⟨0, 100⟩⟩) plainSema 30 ≠
      some (.ok ⟨⟨1, ⟨0, 0⟩⟩, codeFoo1, [], [], 0, 0, []⟩) :=
  c6_restrict_range_rejects (plainRule patFooA) codeFoo1 plainSema 30 ⟨2, ⟨0, 100⟩⟩
    (Or.inl (by decide)) ⟨⟨1, ⟨0, 0⟩⟩, codeFoo1, [], [], 0, 0, []⟩

/-! ### C8: bare-placeholder patterns bind at node granularity -/

/-- A bare placeholder pattern node: reduces to the ident `a` through
single-child wrappers. -/
def barePlaceholderPat : SyntaxNode := .mk (.other 2) [.token ⟨.ident, "a", ⟨4, 5⟩⟩]

/-- Claim C8: for every pattern node that reduces to a bare placeholder
token, the placeholder's constraints are evaluated against the literal
candidate node and any constraint failure fails the whole match attempt; if
all constraints pass, the first phase accepts immediately and the second
phase binds the candidate node itself (node granularity), with no
structural comparison of the candidate's children (the candidate node is
arbitrary throughout). -/
theorem c8_placeholder_node_binding (M : Matcher) (fuel : Nat)
    (pattern code : SyntaxNode) (placeholder : Placeholder)
    (h : M.getPlaceholder (SyntaxElement.node pattern) = some placeholder) :
    (∀ ph e, checkConstraints placeholder.constraints code = .error e →
      attemptMatchNode M (fuel + 1) ph pattern code = some (.error e)) ∧
    (checkConstraints placeholder.constraints code = .ok () →
      attemptMatchNode M (fuel + 1) .first pattern code = some (.ok .first)) ∧
    (∀ m, checkConstraints placeholder.constraints code = .ok () →
      validateRange M.restrictRange (M.sema.originalRange code) = .ok () →
      attemptMatchNode M (fuel + 1) (.second m) pattern code =
        some (.ok (.second (m.insertPlaceholderValue placeholder.ident
          (PlaceholderMatch.new code (M.sema.originalRange code)))))) := by
  refine ⟨?_, ?_, ?_⟩
  · intro ph e hc
    cases ph with
    | first => simp [attemptMatchNode, h, hc]
    | second m => simp [attemptMatchNode, h, hc]
  · intro hc
    simp [attemptMatchNode, h, hc]
  · intro m hc hv
    simp [attemptMatchNode, h, hc, hv]

/-- Witness for C8: the bare placeholder `$a` binds the whole concrete
candidate `foo(1)` at node granularity in the second phase. -/
theorem c8_placeholder_node_binding_witness :
    attemptMatchNode (plainMatcher barePlaceholderPat) 5
      (.second ⟨⟨1, ⟨0, 0⟩⟩, codeFoo1, [], [], 0, 0, []⟩) barePlaceholderPat codeFoo1 =
      some (.ok (.second
        ((⟨⟨1, ⟨0, 0⟩⟩, codeFoo1, [], [], 0, 0, []⟩ : MatchResult).insertPlaceholderValue "a"
          (PlaceholderMatch.new codeFoo1 (plainSema.originalRange codeFoo1))))) :=
  (c8_placeholder_node_binding (plainMatcher barePlaceholderPat) 4 barePlaceholderPat
    codeFoo1 ⟨"a", []⟩ (by rfl)).2.2 ⟨⟨1, ⟨0, 0⟩⟩, codeFoo1, [], [], 0, 0, []⟩
    (by rfl) (by rfl)

/-! ### C7: trailing-comma tolerances -/

/-- Claim C7: during ordered token alignment, a comma in the candidate is
accepted without consuming any pattern element when the pattern is at a
closing delimiter (the candidate's trailing comma has no counterpart in the
pattern), and a comma in the pattern immediately before a closing delimiter
reached by the candidate is skipped; in particular pattern `foo($a)` matches
candidate `foo(1,)` and pattern `foo($a,)` matches candidate `foo(1)`. -/
theorem c7_trailing_comma_tolerances :
    (∀ (ph : Phase) (p : SyntaxToken) (rest : List SyntaxElement) (t : SyntaxToken),
      isClosingToken p.kind → t.kind = SyntaxKind.comma →
      attemptMatchToken ph (SyntaxElement.token p :: rest) t =
        .ok (ph, SyntaxElement.token p :: rest)) ∧
    (∀ (ph : Phase) (p q : SyntaxToken) (rest : List SyntaxElement) (t : SyntaxToken),
      p.kind = SyntaxKind.comma → isClosingToken t.kind →
      q.kind = t.kind → q.text = t.text →
      attemptMatchToken ph (SyntaxElement.token p :: SyntaxElement.token q :: rest) t =
        .ok (ph, rest)) ∧
    attemptMatchNode (plainMatcher patFooA) 30 .first patFooA codeFoo1Trailing =
      some (.ok .first) ∧
    attemptMatchNode (plainMatcher patFooATrailing) 30 .first patFooATrailing codeFoo1 =
      some (.ok .first) := by
  refine ⟨?_, ?_, by rfl, by rfl⟩
  · intro ph p rest t hp ht
    simp [attemptMatchToken, Phase.recordIgnoredComments, ht, hp, SyntaxKind.isTrivia]
  · intro ph p q rest t hp hcl hqk hqt
    have htk : t.kind = SyntaxKind.rParen ∨ t.kind = SyntaxKind.rCurly ∨
        t.kind = SyntaxKind.rBrack := by
      simpa [isClosingToken] using hcl
    rcases htk with h3 | h3 | h3 <;>
      simp [attemptMatchToken, Phase.recordIgnoredComments, h3, hp, hqk, hqt,
        SyntaxKind.isTrivia, isClosingToken]

/-- Witness for C7: both tolerances at concrete tokens — a candidate comma
before the pattern's `)` is accepted, and a pattern comma before the
candidate's `)` is skipped. -/
theorem c7_trailing_comma_tolerances_witness :
    attemptMatchToken .first [SyntaxElement.token ⟨.rParen, ")", ⟨5, 6⟩⟩]
        ⟨.comma, ",", ⟨45, 46⟩⟩ =
      .ok (.first, [SyntaxElement.token ⟨.rParen, ")", ⟨5, 6⟩⟩]) ∧
    attemptMatchToken .first
        [SyntaxElement.token ⟨.comma, ",", ⟨5, 6⟩⟩, SyntaxElement.token ⟨.rParen, ")", ⟨6, 7⟩⟩]
        ⟨.rParen, ")", ⟨45, 46⟩⟩ =
      .ok (.first, []) :=
  ⟨c7_trailing_comma_tolerances.1 .first ⟨.rParen, ")", ⟨5, 6⟩⟩ [] ⟨.comma, ",", ⟨45, 46⟩⟩
      (by decide) (by decide),
    c7_trailing_comma_tolerances.2.1 .first ⟨.comma, ",", ⟨5, 6⟩⟩ ⟨.rParen, ")", ⟨6, 7⟩⟩ []
      ⟨.rParen, ")", ⟨45, 46⟩⟩ (by decide) (by decide) (by decide) (by decide)⟩

/-! ### C4: call-style (UFCS) equivalence -/

/-- One-sided `attempt_match_opt` with nothing on the pattern side never
succeeds. -/
theorem attemptMatchOpt_none_some (M : Matcher) (fuel : Nat) (ph : Phase) (c : SyntaxNode) :
    ∀ ph', attemptMatchOpt M fuel ph none (some c) ≠ some (.ok ph') := by
  cases fuel <;> simp [attemptMatchOpt]

/-- One-sided `attempt_match_opt` with nothing on the code side never
succeeds. -/
theorem attemptMatchOpt_some_none (M : Matcher) (fuel : Nat) (ph : Phase) (p : SyntaxNode) :
    ∀ ph', attemptMatchOpt M fuel ph (some p) none ≠ some (.ok ph') := by
  cases fuel <;> simp [attemptMatchOpt]

/-- If the UFCS argument zip loop accepts, the argument lists had equal
length. -/
theorem ufcsArgLoop_ok_length (M : Matcher) :
    ∀ (fuel : Nat) (ph : Phase) (pa ca : List SyntaxNode) (ph' : Phase),
      ufcsArgLoop M fuel ph pa ca = some (.ok ph') → pa.length = ca.length := by
  intro fuel
  induction fuel with
  | zero => intro ph pa ca ph' h; simp [ufcsArgLoop] at h
  | succ fuel ih =>
    intro ph pa ca ph' h
    match pa, ca with
    | [], [] => rfl
    | [], c :: cs =>
      simp only [ufcsArgLoop, List.head?, List.tail] at h
      cases hopt : attemptMatchOpt M fuel ph none (some c) with
      | none => rw [hopt] at h; exact absurd h (by simp)
      | some r =>
        cases r with
        | error e => rw [hopt] at h; exact absurd h (by simp)
        | ok ph1 => exact absurd hopt (attemptMatchOpt_none_some M fuel ph c ph1)
    | p :: ps, [] =>
      simp only [ufcsArgLoop, List.head?, List.tail] at h
      cases hopt : attemptMatchOpt M fuel ph (some p) none with
      | none => rw [hopt] at h; exact absurd h (by simp)
      | some r =>
        cases r with
        | error e => rw [hopt] at h; exact absurd h (by simp)
        | ok ph1 => exact absurd hopt (attemptMatchOpt_some_none M fuel ph p ph1)
    | p :: ps, c :: cs =>
      simp only [ufcsArgLoop, List.head?, List.tail] at h
      cases hopt : attemptMatchOpt M fuel ph (some p) (some c) with
      | none => rw [hopt] at h; exact absurd h (by simp)
      | some r =>
        cases r with
        | error e => rw [hopt] at h; exact absurd h (by simp)
        | ok ph1 =>
          rw [hopt] at h
          dsimp only at h
          simpa using ih ph1 ps cs ph' h

/-- Claim C4: for a pattern call eligible for call-style equivalence
against a candidate method call, the node matcher dispatches to the UFCS
matcher; resolution failure and resolution to a different function are hard
failures; differing argument counts never succeed; and a successful UFCS
match implies the candidate resolved exactly to the pattern's pre-resolved
function, the pattern's first argument matched the candidate's receiver,
and the remaining pattern arguments zip-matched the candidate arguments
(hence equal counts). -/
theorem c4_ufcs_call_equivalence (M : Matcher) (fuel : Nat) (ph : Phase)
    (pattern code : SyntaxNode) (patternFunction : Nat) :
    (M.getPlaceholder (SyntaxElement.node pattern) = none →
      lookupNode M.rule.pattern.ufcsFunctionCalls pattern = some patternFunction →
      pattern.kind = SyntaxKind.callExpr → code.kind = SyntaxKind.methodCallExpr →
      attemptMatchNode M (fuel + 1) ph pattern code =
        attemptMatchUfcs M fuel ph pattern code patternFunction) ∧
    (M.sema.resolveMethodCall code = none →
      attemptMatchUfcs M (fuel + 1) ph pattern code patternFunction =
        some (.error ⟨none⟩)) ∧
    (∀ g, M.sema.resolveMethodCall code = some g → patternFunction ≠ g →
      attemptMatchUfcs M (fuel + 1) ph pattern code patternFunction =
        some (.error ⟨none⟩)) ∧
    (∀ (fuel' : Nat) (ph1 : Phase) (pa ca : List SyntaxNode), pa.length ≠ ca.length →
      ∀ ph', ufcsArgLoop M fuel' ph1 pa ca ≠ some (.ok ph')) ∧
    (∀ ph', attemptMatchUfcs M (fuel + 1) ph pattern code patternFunction =
        some (.ok ph') →
      M.sema.resolveMethodCall code = some patternFunction ∧
      ∃ patternArgList ph1, argList pattern = some patternArgList ∧
        attemptMatchOpt M fuel ph (argListArgs patternArgList).head?
          (methodCallReceiver code) = some (.ok ph1) ∧
        ∃ codeArgList, argList code = some codeArgList ∧
          ufcsArgLoop M fuel ph1 (argListArgs patternArgList).tail
            (argListArgs codeArgList) = some (.ok ph') ∧
          (argListArgs patternArgList).tail.length =
            (argListArgs codeArgList).length) := by
  refine ⟨?_, ?_, ?_, ?_, ?_⟩
  · intro hpl hlk hpk hck
    simp [attemptMatchNode, hpl, hlk, hpk, hck]
  · intro hres
    simp [attemptMatchUfcs, hres]
  · intro g hres hne
    simp [attemptMatchUfcs, hres, hne]
  · intro fuel' ph1 pa ca hlen ph' h
    exact hlen (ufcsArgLoop_ok_length M fuel' ph1 pa ca ph' h)
  · intro ph' h
    rw [attemptMatchUfcs] at h
    cases hres : M.sema.resolveMethodCall code with
    | none => rw [hres] at h; exact absurd h (by simp)
    | some g =>
      rw [hres] at h
      dsimp only at h
      by_cases hg : patternFunction = g
      · subst hg
        rw [if_neg (fun hc => hc rfl)] at h
        cases hal : argList pattern with
        | none => rw [hal] at h; exact absurd h (by simp)
        | some patternArgList =>
          rw [hal] at h
          dsimp only at h
          cases hopt : attemptMatchOpt M fuel ph (argListArgs patternArgList).head?
              (methodCallReceiver code) with
          | none => rw [hopt] at h; exact absurd h (by simp)
          | some r =>
            cases r with
            | error e => rw [hopt] at h; exact absurd h (by simp)
            | ok ph1 =>
              rw [hopt] at h
              dsimp only at h
              cases hcl : argList code with
              | none => rw [hcl] at h; exact absurd h (by simp)
              | some codeArgList =>
                rw [hcl] at h
                dsimp only at h
                exact ⟨rfl, patternArgList, ph1, rfl, hopt, codeArgList, rfl, h,
                  ufcsArgLoop_ok_length M fuel ph1 _ _ ph' h⟩
      · rw [if_pos hg] at h
        exact absurd h (by simp)

/-- Pattern `Type::method($r, $x)` as a call expression eligible for UFCS
equivalence. -/
def patUfcsCall : SyntaxNode :=
  .mk .callExpr
    [ .node (.mk .path [.node (.mk .pathSegment [.node (.mk .nameRef
        [.token ⟨.ident, "method", ⟨0, 6⟩⟩])])])
    , .node (.mk .argListKind
        [ .token ⟨.other 1, "(", ⟨6, 7⟩⟩
        , .node (.mk (.other 2) [.token ⟨.ident, "r", ⟨7, 8⟩⟩])
        , .token ⟨.comma, ",", ⟨8, 9⟩⟩
        , .node (.mk (.other 2) [.token ⟨.ident, "x", ⟨10, 11⟩⟩])
        , .token ⟨.rParen, ")", ⟨11, 12⟩⟩])]

/-- Candidate `recv.method(2)` as a method-call expression. -/
def codeMethodCall : SyntaxNode :=
  .mk .methodCallExpr
    [ .node (.mk .literal [.token ⟨.other 9, "1", ⟨50, 51⟩⟩])
    , .token ⟨.other 7, ".", ⟨51, 52⟩⟩
    , .node (.mk .argListKind
        [ .token ⟨.other 1, "(", ⟨59, 60⟩⟩
        , .node (.mk .literal [.token ⟨.other 9, "2", ⟨60, 61⟩⟩])
        , .token ⟨.rParen, ")", ⟨61, 62⟩⟩])]

/-- A matcher whose rule pre-resolved `patUfcsCall` to function 42 and whose
resolution service resolves every method call to function 42. -/
def ufcsMatcher : Matcher :=
  { sema :=
      { plainSema with
        resolveMethodCall := fun n =>
          if n.kind = SyntaxKind.methodCallExpr then some 42 else none }
    restrictRange := none
    rule :=
      { pattern :=
          { node := patUfcsCall
            resolvedPaths := []
            ufcsFunctionCalls := [(patUfcsCall, 42)]
            placeholdersByStandIn := [("r", ⟨"r", []⟩), ("x", ⟨"x", []⟩)] }
        template := none
        index := 0 } }

/-- Witness for C4: the concrete UFCS match of `Type::method($r, $x)`
against `recv.method(2)` succeeds, and therefore resolved to the pattern's
function, matched the receiver, and zip-matched the remaining argument. -/
theorem c4_ufcs_call_equivalence_witness :
    ufcsMatcher.sema.resolveMethodCall codeMethodCall = some 42 ∧
    ∃ patternArgList ph1, argList patUfcsCall = some patternArgList ∧
      attemptMatchOpt ufcsMatcher 19 .first (argListArgs patternArgList).head?
        (methodCallReceiver codeMethodCall) = some (.ok ph1) ∧
      ∃ codeArgList, argList codeMethodCall = some codeArgList ∧
        ufcsArgLoop ufcsMatcher 19 ph1 (argListArgs patternArgList).tail
          (argListArgs codeArgList) = some (.ok .first) ∧
        (argListArgs patternArgList).tail.length = (argListArgs codeArgList).length :=
  (c4_ufcs_call_equivalence ufcsMatcher 19 .first patUfcsCall codeMethodCall 42).2.2.2.2
    .first (by rfl)

end Ssr

namespace Ssr

/-- Phase transition invariant. -/
def PhaseStep : Phase → Phase → Prop
  | .first, .first => True
  | .second m, .second m' => m'.matchedNode = m.matchedNode
  | _, _ => False

theorem PhaseStep.refl : ∀ ph, PhaseStep ph ph := by
  intro ph; cases ph <;> simp [PhaseStep]

theorem PhaseStep.trans {a b c : Phase} (h1 : PhaseStep a b) (h2 : PhaseStep b c) :
    PhaseStep a c := by
  cases a <;> cases b <;> cases c <;> simp_all [PhaseStep]

theorem recordIgnoredComments_phaseStep (ph : Phase) (t : SyntaxToken) :
    PhaseStep ph (ph.recordIgnoredComments t) := by
  cases ph <;> by_cases hc : t.kind = SyntaxKind.comment <;>
    simp [Phase.recordIgnoredComments, hc, PhaseStep]

theorem nextNonTrivial_phaseStep :
    ∀ (elems : List SyntaxElement) (ph ph1 : Phase) (c : Option SyntaxElement)
      (rest : List SyntaxElement),
      Phase.nextNonTrivial ph elems = (ph1, c, rest) → PhaseStep ph ph1 := by
  intro elems
  induction elems with
  | nil => intro ph ph1 c rest h; simp [Phase.nextNonTrivial] at h; simp [h.1.symm, PhaseStep.refl]
  | cons e tail ih =>
    intro ph ph1 c rest h
    cases e with
    | token t =>
      rw [Phase.nextNonTrivial] at h
      by_cases ht : t.kind.isTrivia
      · rw [if_pos ht] at h
        exact PhaseStep.trans (recordIgnoredComments_phaseStep ph t) (ih _ _ _ _ h)
      · rw [if_neg ht] at h
        injection h with h1 h2
        subst h1
        exact recordIgnoredComments_phaseStep ph t
    | node n =>
      rw [Phase.nextNonTrivial] at h
      injection h with h1 h2
      subst h1
      exact PhaseStep.refl ph

theorem attemptMatchToken_phaseStep (ph : Phase) (pat : List SyntaxElement)
    (t : SyntaxToken) (ph' : Phase) (pat' : List SyntaxElement)
    (h : attemptMatchToken ph pat t = .ok (ph', pat')) : PhaseStep ph ph' := by
  rw [attemptMatchToken.eq_def] at h
  have base := recordIgnoredComments_phaseStep ph t
  by_cases ht : t.kind.isTrivia
  · rw [if_pos ht] at h
    injection h with h1
    injection h1 with h1 h2
    subst h1
    exact base
  · rw [if_neg ht] at h
    rcases pat with _ | ⟨e, rest⟩
    · simp at h
    · cases e with
      | token p =>
        dsimp only at h
        by_cases h1 : t.kind = SyntaxKind.comma ∧ isClosingToken p.kind
        · rw [if_pos h1] at h
          injection h with h2
          injection h2 with h2 h3
          subst h2
          exact base
        · rw [if_neg h1] at h
          split at h
          · split at h
            · injection h with h2
              injection h2 with h2 h3
              subst h2
              exact base
            · simp at h
          · simp at h
          · simp at h
      | node p =>
        simp at h

/-- One-step unfolding of `attemptMatchTokenTreeGo` at positive fuel. -/
theorem attemptMatchTokenTreeGo_succ (M : Matcher) (fuel : Nat) (ph : Phase)
    (pat children : List SyntaxElement) (fid : Nat) :
    attemptMatchTokenTreeGo M (fuel + 1) ph pat children fid =
      (match children with
      | [] =>
        match pat with
        | [] => some (.ok ph)
        | _ :: _ => some (.error ⟨none⟩)
      | child :: rest =>
        match pat.head?.bind fun p => M.getPlaceholder p with
        | some placeholder =>
          let patAfter := pat.tail
          let nextTok := nextPatternTokenText patAfter.head?
          match scanPlaceholder M fuel ph patAfter rest nextTok child with
          | none => none
          | some (.error e) => some (.error e)
          | some (.ok (ph1, pat2, rest2, lastMatched)) =>
            let ph2 := ph1.recordTokenRange placeholder fid child lastMatched
            attemptMatchTokenTreeGo M fuel ph2 pat2 rest2 fid
        | none =>
          match child with
          | SyntaxElement.token t =>
            match attemptMatchToken ph pat t with
            | .error e => some (.error e)
            | .ok (ph1, pat2) => attemptMatchTokenTreeGo M fuel ph1 pat2 rest fid
          | SyntaxElement.node n =>
            match pat with
            | SyntaxElement.node p :: patRest =>
              match attemptMatchTokenTree M fuel ph p n with
              | none => none
              | some (.error e) => some (.error e)
              | some (.ok ph1) => attemptMatchTokenTreeGo M fuel ph1 patRest rest fid
            | SyntaxElement.token _ :: _ => some (.error ⟨none⟩)
            | [] => some (.error ⟨none⟩)) := rfl

/-- One-step unfolding of `scanPlaceholder` at positive fuel. -/
theorem scanPlaceholder_succ (M : Matcher) (fuel : Nat) (ph : Phase)
    (pat children : List SyntaxElement) (nextTok : Option String) (last : SyntaxElement) :
    scanPlaceholder M (fuel + 1) ph pat children nextTok last =
      (match children with
      | [] => some (.ok (ph, pat, [], last))
      | next :: rest =>
        match next with
        | SyntaxElement.token t =>
          if (some t.text : Option String) = nextTok then
            some (.ok (ph, pat.tail, rest, last))
          else
            scanPlaceholder M fuel ph pat rest nextTok next
        | SyntaxElement.node n =>
          match n.firstToken with
          | some firstTok =>
            if (some firstTok.text : Option String) = nextTok then
              match pat with
              | SyntaxElement.node p :: patRest =>
                match attemptMatchTokenTree M fuel ph p n with
                | none => none
                | some (.error e) => some (.error e)
                | some (.ok ph1) => some (.ok (ph1, patRest, rest, last))
              | _ =>
                scanPlaceholder M fuel ph pat.tail rest nextTok next
            else
              scanPlaceholder M fuel ph pat rest nextTok next
          | none => scanPlaceholder M fuel ph pat rest nextTok next) := rfl

end Ssr

namespace Ssr

theorem recordTokenRange_phaseStep (ph : Phase) (pl : Placeholder) (fid : Nat)
    (first last : SyntaxElement) : PhaseStep ph (ph.recordTokenRange pl fid first last) := by
  cases ph <;> simp [Phase.recordTokenRange, PhaseStep, MatchResult.insertPlaceholderValue]

/-- Every matching routine preserves the phase constructor and, in the
recording phase, the matched node of the match under construction. -/
theorem phaseStepAll : ∀ fuel : Nat,
    (∀ M ph p c ph', attemptMatchNode M fuel ph p c = some (.ok ph') → PhaseStep ph ph') ∧
    (∀ M ph p c ph', attemptMatchNodeKinded M fuel ph p c = some (.ok ph') → PhaseStep ph ph') ∧
    (∀ M ph p c ph', attemptMatchNodeChildren M fuel ph p c = some (.ok ph') → PhaseStep ph ph') ∧
    (∀ M ph pat ce ph', attemptMatchSequences M fuel ph pat ce = some (.ok ph') → PhaseStep ph ph') ∧
    (∀ M ph p c ph', attemptMatchRecordFieldList M fuel ph p c = some (.ok ph') → PhaseStep ph ph') ∧
    (∀ M ph p c pe fs ph', recordFieldLoop M fuel ph p c pe fs = some (.ok ph') → PhaseStep ph ph') ∧
    (∀ M ph p c ph', attemptMatchTokenTree M fuel ph p c = some (.ok ph') → PhaseStep ph ph') ∧
    (∀ M ph pat ch fid ph', attemptMatchTokenTreeGo M fuel ph pat ch fid = some (.ok ph') → PhaseStep ph ph') ∧
    (∀ M ph pat ch tok lst ph1 pat' rest' last',
      scanPlaceholder M fuel ph pat ch tok lst = some (.ok (ph1, pat', rest', last')) →
      PhaseStep ph ph1) ∧
    (∀ M ph p c ph', attemptMatchPath M fuel ph p c = some (.ok ph') → PhaseStep ph ph') ∧
    (∀ M ph po co ph', attemptMatchOpt M fuel ph po co = some (.ok ph') → PhaseStep ph ph') ∧
    (∀ M ph p c f ph', attemptMatchUfcs M fuel ph p c f = some (.ok ph') → PhaseStep ph ph') ∧
    (∀ M ph pa ca ph', ufcsArgLoop M fuel ph pa ca = some (.ok ph') → PhaseStep ph ph') := by
  intro fuel
  induction fuel with
  | zero =>
    refine ⟨?_, ?_, ?_, ?_, ?_, ?_, ?_, ?_, ?_, ?_, ?_, ?_, ?_⟩ <;>
      intro M ph <;> intros <;> simp_all [attemptMatchNode, attemptMatchNodeKinded,
        attemptMatchNodeChildren, attemptMatchSequences, attemptMatchRecordFieldList,
        recordFieldLoop, attemptMatchTokenTree, attemptMatchTokenTreeGo, scanPlaceholder,
        attemptMatchPath, attemptMatchOpt, attemptMatchUfcs, ufcsArgLoop]
  | succ fuel ih =>
    obtain ⟨ihNode, ihKinded, ihChildren, ihSeq, ihRFL, ihLoop, ihTT, ihGo, ihScan,
      ihPath, ihOpt, ihUfcs, ihArgs⟩ := ih
    refine ⟨?_, ?_, ?_, ?_, ?_, ?_, ?_, ?_, ?_, ?_, ?_, ?_, ?_⟩
    -- attemptMatchNode
    · intro M ph p c ph' h
      rw [attemptMatchNode] at h
      cases hpl : M.getPlaceholder (SyntaxElement.node p) with
      | some placeholder =>
        rw [hpl] at h
        try dsimp only at h
        cases hc : checkConstraints placeholder.constraints c with
        | error e => rw [hc] at h; simp at h
        | ok u =>
          rw [hc] at h
          cases ph with
          | first =>
            try dsimp only at h
            injection h with h1
            injection h1 with h1
            subst h1
            exact PhaseStep.refl .first
          | second m =>
            try dsimp only at h
            cases hv : validateRange M.restrictRange (M.sema.originalRange c) with
            | error e => rw [hv] at h; simp at h
            | ok u2 =>
              rw [hv] at h
              try dsimp only at h
              injection h with h1
              injection h1 with h1
              subst h1
              simp [PhaseStep, MatchResult.insertPlaceholderValue]
      | none =>
        rw [hpl] at h
        try dsimp only at h
        cases hlk : lookupNode M.rule.pattern.ufcsFunctionCalls p with
        | some f =>
          rw [hlk] at h
          try dsimp only at h
          split at h
          · exact ihUfcs _ _ _ _ _ _ h
          · exact ihKinded _ _ _ _ _ h
        | none =>
          rw [hlk] at h
          try dsimp only at h
          exact ihKinded _ _ _ _ _ h
    -- attemptMatchNodeKinded
    · intro M ph p c ph' h
      rw [attemptMatchNodeKinded] at h
      split at h
      · simp at h
      · split at h
        · exact ihRFL _ _ _ _ _ h
        · exact ihTT _ _ _ _ _ h
        · exact ihPath _ _ _ _ _ h
        · exact ihChildren _ _ _ _ _ h
    -- attemptMatchNodeChildren
    · intro M ph p c ph' h
      rw [attemptMatchNodeChildren] at h
      exact ihSeq _ _ _ _ _ h
    -- attemptMatchSequences
    · intro M ph pat ce ph' h
      rw [attemptMatchSequences] at h
      rcases hnn : ph.nextNonTrivial ce with ⟨ph1, copt, rest⟩
      rw [hnn] at h
      have base := nextNonTrivial_phaseStep ce ph ph1 copt rest hnn
      cases copt with
      | none =>
        try dsimp only at h
        cases pat with
        | nil =>
          injection h with h1
          injection h1 with h1
          subst h1
          exact base
        | cons pe prest => simp at h
      | some el =>
        cases el with
        | token c =>
          try dsimp only at h
          cases hat : attemptMatchToken ph1 pat c with
          | error e => rw [hat] at h; simp at h
          | ok pr =>
            obtain ⟨ph2, pat2⟩ := pr
            rw [hat] at h
            try dsimp only at h
            exact base.trans ((attemptMatchToken_phaseStep ph1 pat c ph2 pat2 hat).trans
              (ihSeq _ _ _ _ _ h))
        | node c =>
          try dsimp only at h
          cases pat with
          | nil => simp at h
          | cons pe prest =>
            cases pe with
            | token pt => simp at h
            | node pn =>
              try dsimp only at h
              cases hn : attemptMatchNode M fuel ph1 pn c with
              | none => rw [hn] at h; simp at h
              | some r =>
                cases r with
                | error e => rw [hn] at h; simp at h
                | ok ph2 =>
                  rw [hn] at h
                  try dsimp only at h
                  exact base.trans ((ihNode _ _ _ _ _ hn).trans (ihSeq _ _ _ _ _ h))
    -- attemptMatchRecordFieldList
    · intro M ph p c ph' h
      rw [attemptMatchRecordFieldList] at h
      exact ihLoop _ _ _ _ _ _ _ h
    -- recordFieldLoop
    · intro M ph p c pe fs ph' h
      rw [recordFieldLoop.eq_def] at h
      try dsimp only at h
      cases pe with
      | nil =>
        cases fs with
        | nil =>
          try dsimp only at h
          injection h with h1
          injection h1 with h1
          subst h1
          exact PhaseStep.refl ph
        | cons f fs' => simp at h
      | cons e rest =>
        cases e with
        | token t => exact ihLoop _ _ _ _ _ _ _ h
        | node pn =>
          try dsimp only at h
          cases hfc : pn.firstChildOrToken with
          | none => rw [hfc] at h; exact ihLoop _ _ _ _ _ _ _ h
          | some nameElement =>
            rw [hfc] at h
            try dsimp only at h
            split at h
            · exact ihChildren _ _ _ _ _ h
            · cases hio : onlyIdent nameElement with
              | none => rw [hio] at h; exact ihLoop _ _ _ _ _ _ _ h
              | some ident =>
                rw [hio] at h
                try dsimp only at h
                cases hrm : removeAssoc fs ident.text with
                | none => rw [hrm] at h; simp at h
                | some pr =>
                  obtain ⟨codeRecord, fs'⟩ := pr
                  rw [hrm] at h
                  try dsimp only at h
                  cases hn : attemptMatchNode M fuel ph pn codeRecord with
                  | none => rw [hn] at h; simp at h
                  | some r =>
                    cases r with
                    | error e2 => rw [hn] at h; simp at h
                    | ok ph1 =>
                      rw [hn] at h
                      try dsimp only at h
                      exact (ihNode _ _ _ _ _ hn).trans (ihLoop _ _ _ _ _ _ _ h)
    -- attemptMatchTokenTree
    · intro M ph p c ph' h
      rw [attemptMatchTokenTree] at h
      exact ihGo _ _ _ _ _ _ h
    -- attemptMatchTokenTreeGo
    · intro M ph pat ch fid ph' h
      rw [attemptMatchTokenTreeGo_succ] at h
      try dsimp only at h
      cases ch with
      | nil =>
        cases pat with
        | nil =>
          try dsimp only at h
          injection h with h1
          injection h1 with h1
          subst h1
          exact PhaseStep.refl ph
        | cons pe prest => simp at h
      | cons child rest =>
        try dsimp only at h
        cases hpl : pat.head?.bind fun pp => M.getPlaceholder pp with
        | some placeholder =>
          rw [hpl] at h
          try dsimp only at h
          cases hscan : scanPlaceholder M fuel ph pat.tail rest
              (nextPatternTokenText pat.tail.head?) child with
          | none => rw [hscan] at h; simp at h
          | some r =>
            cases r with
            | error e => rw [hscan] at h; simp at h
            | ok q =>
              obtain ⟨ph1, pat', rest', lastM⟩ := q
              rw [hscan] at h
              try dsimp only at h
              exact (ihScan _ _ _ _ _ _ _ _ _ _ hscan).trans
                ((recordTokenRange_phaseStep ph1 placeholder fid child lastM).trans
                  (ihGo _ _ _ _ _ _ h))
        | none =>
          rw [hpl] at h
          try dsimp only at h
          cases child with
          | token t =>
            try dsimp only at h
            cases hat : attemptMatchToken ph pat t with
            | error e => rw [hat] at h; simp at h
            | ok pr =>
              obtain ⟨ph1, pat2⟩ := pr
              rw [hat] at h
              try dsimp only at h
              exact (attemptMatchToken_phaseStep ph pat t ph1 pat2 hat).trans
                (ihGo _ _ _ _ _ _ h)
          | node n =>
            try dsimp only at h
            cases pat with
            | nil => simp at h
            | cons pe prest =>
              cases pe with
              | token pt => simp at h
              | node pn =>
                try dsimp only at h
                cases htt : attemptMatchTokenTree M fuel ph pn n with
                | none => rw [htt] at h; simp at h
                | some r =>
                  cases r with
                  | error e => rw [htt] at h; simp at h
                  | ok ph1 =>
                    rw [htt] at h
                    try dsimp only at h
                    exact (ihTT _ _ _ _ _ htt).trans (ihGo _ _ _ _ _ _ h)
    -- scanPlaceholder
    · intro M ph pat ch tok lst ph1 pat' rest' last' h
      rw [scanPlaceholder_succ] at h
      try dsimp only at h
      cases ch with
      | nil =>
        try dsimp only at h
        injection h with h1
        injection h1 with h1
        injection h1 with h1 h2
        subst h1
        exact PhaseStep.refl ph
      | cons next rest =>
        cases next with
        | token t =>
          try dsimp only at h
          split at h
          · injection h with h1
            injection h1 with h1
            injection h1 with h1 h2
            subst h1
            exact PhaseStep.refl ph
          · exact ihScan _ _ _ _ _ _ _ _ _ _ h
        | node n =>
          try dsimp only at h
          cases hft : n.firstToken with
          | none => rw [hft] at h; exact ihScan _ _ _ _ _ _ _ _ _ _ h
          | some ft =>
            rw [hft] at h
            try dsimp only at h
            split at h
            · cases pat with
              | nil => exact ihScan _ _ _ _ _ _ _ _ _ _ h
              | cons pe prest =>
                cases pe with
                | token pt => exact ihScan _ _ _ _ _ _ _ _ _ _ h
                | node pn =>
                  try dsimp only at h
                  cases htt : attemptMatchTokenTree M fuel ph pn n with
                  | none => rw [htt] at h; simp at h
                  | some r =>
                    cases r with
                    | error e => rw [htt] at h; simp at h
                    | ok ph2 =>
                      rw [htt] at h
                      try dsimp only at h
                      injection h with h1
                      injection h1 with h1
                      injection h1 with h1 h2
                      subst h1
                      exact ihTT _ _ _ _ _ htt
            · exact ihScan _ _ _ _ _ _ _ _ _ _ h
    -- attemptMatchPath
    · intro M ph p c ph' h
      rw [attemptMatchPath] at h
      cases hlk : lookupNode M.rule.pattern.resolvedPaths p with
      | none => rw [hlk] at h; exact ihChildren _ _ _ _ _ h
      | some patternResolved =>
        rw [hlk] at h
        try dsimp only at h
        cases hs1 : pathSegment p with
        | none =>
          rw [hs1] at h
          try dsimp only at h
          cases ph with
          | first =>
            try dsimp only at h
            injection h with h1
            injection h1 with h1
            subst h1
            exact PhaseStep.refl .first
          | second m =>
            try dsimp only at h
            cases hr : M.sema.resolvePath c with
            | none => rw [hr] at h; simp at h
            | some resolution =>
              rw [hr] at h
              try dsimp only at h
              split at h
              · simp at h
              · injection h with h1
                injection h1 with h1
                subst h1
                exact PhaseStep.refl _
        | some patternSegment =>
          rw [hs1] at h
          try dsimp only at h
          cases hs2 : pathSegment c with
          | none =>
            rw [hs2] at h
            try dsimp only at h
            cases ph with
            | first =>
              try dsimp only at h
              injection h with h1
              injection h1 with h1
              subst h1
              exact PhaseStep.refl .first
            | second m =>
              try dsimp only at h
              cases hr : M.sema.resolvePath c with
              | none => rw [hr] at h; simp at h
              | some resolution =>
                rw [hr] at h
                try dsimp only at h
                split at h
                · simp at h
                · injection h with h1
                  injection h1 with h1
                  subst h1
                  exact PhaseStep.refl _
          | some codeSegment =>
            rw [hs2] at h
            try dsimp only at h
            cases ho1 : attemptMatchOpt M fuel ph (segmentTypeArgList patternSegment)
                (segmentTypeArgList codeSegment) with
            | none => rw [ho1] at h; simp at h
            | some r1 =>
              cases r1 with
              | error e => rw [ho1] at h; simp at h
              | ok phA =>
                rw [ho1] at h
                try dsimp only at h
                cases ho2 : attemptMatchOpt M fuel phA (segmentParamList patternSegment)
                    (segmentParamList codeSegment) with
                | none => rw [ho2] at h; simp at h
                | some r2 =>
                  cases r2 with
                  | error e => rw [ho2] at h; simp at h
                  | ok phB =>
                    rw [ho2] at h
                    try dsimp only at h
                    have chain : PhaseStep ph phB :=
                      (ihOpt _ _ _ _ _ ho1).trans (ihOpt _ _ _ _ _ ho2)
                    cases phB with
                    | first =>
                      try dsimp only at h
                      injection h with h1
                      injection h1 with h1
                      subst h1
                      exact chain
                    | second m =>
                      try dsimp only at h
                      cases hr : M.sema.resolvePath c with
                      | none => rw [hr] at h; simp at h
                      | some resolution =>
                        rw [hr] at h
                        try dsimp only at h
                        split at h
                        · simp at h
                        · injection h with h1
                          injection h1 with h1
                          subst h1
                          exact chain
    -- attemptMatchOpt
    · intro M ph po co ph' h
      rw [attemptMatchOpt.eq_def] at h
      try dsimp only at h
      cases po <;> cases co <;> try dsimp only at h
      · injection h with h1
        injection h1 with h1
        subst h1
        exact PhaseStep.refl ph
      · simp at h
      · simp at h
      · exact ihNode _ _ _ _ _ h
    -- attemptMatchUfcs
    · intro M ph p c f ph' h
      rw [attemptMatchUfcs] at h
      cases hr : M.sema.resolveMethodCall c with
      | none => rw [hr] at h; simp at h
      | some g =>
        rw [hr] at h
        try dsimp only at h
        split at h
        · simp at h
        · cases hal : argList p with
          | none => rw [hal] at h; simp at h
          | some pArgList =>
            rw [hal] at h
            try dsimp only at h
            cases ho : attemptMatchOpt M fuel ph (argListArgs pArgList).head?
                (methodCallReceiver c) with
            | none => rw [ho] at h; simp at h
            | some r =>
              cases r with
              | error e => rw [ho] at h; simp at h
              | ok ph1 =>
                rw [ho] at h
                try dsimp only at h
                cases hcl : argList c with
                | none => rw [hcl] at h; simp at h
                | some cArgList =>
                  rw [hcl] at h
                  try dsimp only at h
                  exact (ihOpt _ _ _ _ _ ho).trans (ihArgs _ _ _ _ _ h)
    -- ufcsArgLoop
    · intro M ph pa ca ph' h
      rw [ufcsArgLoop.eq_def] at h
      try dsimp only at h
      rcases pa with _ | ⟨pp, ps⟩ <;> rcases ca with _ | ⟨cc, cs⟩
      · try dsimp only at h
        injection h with h1
        injection h1 with h1
        subst h1
        exact PhaseStep.refl ph
      · simp only [List.head?, List.tail] at h
        cases ho : attemptMatchOpt M fuel ph none (some cc) with
        | none => rw [ho] at h; simp at h
        | some r =>
          cases r with
          | error e => rw [ho] at h; simp at h
          | ok ph1 =>
            rw [ho] at h
            try dsimp only at h
            exact (ihOpt _ _ _ _ _ ho).trans (ihArgs _ _ _ _ _ h)
      · simp only [List.head?, List.tail] at h
        cases ho : attemptMatchOpt M fuel ph (some pp) none with
        | none => rw [ho] at h; simp at h
        | some r =>
          cases r with
          | error e => rw [ho] at h; simp at h
          | ok ph1 =>
            rw [ho] at h
            try dsimp only at h
            exact (ihOpt _ _ _ _ _ ho).trans (ihArgs _ _ _ _ _ h)
      · simp only [List.head?, List.tail] at h
        cases ho : attemptMatchOpt M fuel ph (some pp) (some cc) with
        | none => rw [ho] at h; simp at h
        | some r =>
          cases r with
          | error e => rw [ho] at h; simp at h
          | ok ph1 =>
            rw [ho] at h
            try dsimp only at h
            exact (ihOpt _ _ _ _ _ ho).trans (ihArgs _ _ _ _ _ h)

end Ssr

namespace Ssr

/-- A successful second-phase node match yields a second-phase result with
the same matched node. -/
theorem attemptMatchNode_second_ok (M : Matcher) (fuel : Nat) (m : MatchResult)
    (p c : SyntaxNode) (ph' : Phase)
    (h : attemptMatchNode M fuel (.second m) p c = some (.ok ph')) :
    ∃ m', ph' = .second m' ∧ m'.matchedNode = m.matchedNode := by
  have hs := (phaseStepAll fuel).1 M (.second m) p c ph' h
  cases ph' with
  | first => exact absurd hs (by simp [PhaseStep])
  | second m' => exact ⟨m', rfl, hs⟩

/-- A successful second-phase optional match yields a second-phase result. -/
theorem attemptMatchOpt_second_ok (M : Matcher) (fuel : Nat) (m : MatchResult)
    (po co : Option SyntaxNode) (ph' : Phase)
    (h : attemptMatchOpt M fuel (.second m) po co = some (.ok ph')) :
    ∃ m', ph' = .second m' := by
  have hs := (phaseStepAll fuel).2.2.2.2.2.2.2.2.2.2.1 M (.second m) po co ph' h
  cases ph' with
  | first => exact absurd hs (by simp [PhaseStep])
  | second m' => exact ⟨m', rfl⟩

/-! ### C5: semantic path matching -/

/-- Claim C5: a pattern path with a recorded semantic target is matched by
comparing the candidate's resolution against the target rather than path
text: with no recorded target the matcher falls back entirely to generic
child matching; with a target, in the recording phase a candidate that
fails to resolve is a hard failure, a candidate resolving to a different
target is a hard failure, and when the segment's type-argument and
parameter lists match structurally and the candidate resolves exactly to
the recorded target the path is accepted (no text comparison occurs — the
segment name plays no role). -/
theorem c5_path_resolution (M : Matcher) (fuel : Nat) (pattern code : SyntaxNode) :
    (∀ ph, lookupNode M.rule.pattern.resolvedPaths pattern = none →
      attemptMatchPath M (fuel + 1) ph pattern code =
        attemptMatchNodeChildren M fuel ph pattern code) ∧
    (∀ r m, lookupNode M.rule.pattern.resolvedPaths pattern = some r →
      M.sema.resolvePath code = none →
      ∀ ph', attemptMatchPath M (fuel + 1) (.second m) pattern code ≠ some (.ok ph')) ∧
    (∀ r m res, lookupNode M.rule.pattern.resolvedPaths pattern = some r →
      M.sema.resolvePath code = some res → r.resolution ≠ res →
      ∀ ph', attemptMatchPath M (fuel + 1) (.second m) pattern code ≠ some (.ok ph')) ∧
    (∀ r m ps cs phA phB, lookupNode M.rule.pattern.resolvedPaths pattern = some r →
      pathSegment pattern = some ps → pathSegment code = some cs →
      attemptMatchOpt M fuel (.second m) (segmentTypeArgList ps)
        (segmentTypeArgList cs) = some (.ok phA) →
      attemptMatchOpt M fuel phA (segmentParamList ps)
        (segmentParamList cs) = some (.ok phB) →
      M.sema.resolvePath code = some r.resolution →
      attemptMatchPath M (fuel + 1) (.second m) pattern code = some (.ok phB)) := by
  refine ⟨?_, ?_, ?_, ?_⟩
  · intro ph hlk
    rw [attemptMatchPath, hlk]
  · intro r m hlk hres ph' h
    rw [attemptMatchPath, hlk] at h
    try dsimp only at h
    cases hs1 : pathSegment pattern with
    | none =>
      rw [hs1] at h
      try dsimp only at h
      rw [hres] at h
      simp at h
    | some ps =>
      rw [hs1] at h
      try dsimp only at h
      cases hs2 : pathSegment code with
      | none =>
        rw [hs2] at h
        try dsimp only at h
        rw [hres] at h
        simp at h
      | some cs =>
        rw [hs2] at h
        try dsimp only at h
        cases ho1 : attemptMatchOpt M fuel (.second m) (segmentTypeArgList ps)
            (segmentTypeArgList cs) with
        | none => rw [ho1] at h; simp at h
        | some r1 =>
          cases r1 with
          | error e => rw [ho1] at h; simp at h
          | ok phA =>
            rw [ho1] at h
            try dsimp only at h
            obtain ⟨mA, rfl⟩ := attemptMatchOpt_second_ok M fuel m _ _ phA ho1
            cases ho2 : attemptMatchOpt M fuel (.second mA) (segmentParamList ps)
                (segmentParamList cs) with
            | none => rw [ho2] at h; simp at h
            | some r2 =>
              cases r2 with
              | error e => rw [ho2] at h; simp at h
              | ok phB =>
                rw [ho2] at h
                try dsimp only at h
                obtain ⟨mB, rfl⟩ := attemptMatchOpt_second_ok M fuel mA _ _ phB ho2
                try dsimp only at h
                rw [hres] at h
                simp at h
  · intro r m res hlk hres hne ph' h
    rw [attemptMatchPath, hlk] at h
    try dsimp only at h
    cases hs1 : pathSegment pattern with
    | none =>
      rw [hs1] at h
      try dsimp only at h
      rw [hres] at h
      try dsimp only at h
      rw [if_pos hne] at h
      simp at h
    | some ps =>
      rw [hs1] at h
      try dsimp only at h
      cases hs2 : pathSegment code with
      | none =>
        rw [hs2] at h
        try dsimp only at h
        rw [hres] at h
        try dsimp only at h
        rw [if_pos hne] at h
        simp at h
      | some cs =>
        rw [hs2] at h
        try dsimp only at h
        cases ho1 : attemptMatchOpt M fuel (.second m) (segmentTypeArgList ps)
            (segmentTypeArgList cs) with
        | none => rw [ho1] at h; simp at h
        | some r1 =>
          cases r1 with
          | error e => rw [ho1] at h; simp at h
          | ok phA =>
            rw [ho1] at h
            try dsimp only at h
            obtain ⟨mA, rfl⟩ := attemptMatchOpt_second_ok M fuel m _ _ phA ho1
            cases ho2 : attemptMatchOpt M fuel (.second mA) (segmentParamList ps)
                (segmentParamList cs) with
            | none => rw [ho2] at h; simp at h
            | some r2 =>
              cases r2 with
              | error e => rw [ho2] at h; simp at h
              | ok phB =>
                rw [ho2] at h
                try dsimp only at h
                obtain ⟨mB, rfl⟩ := attemptMatchOpt_second_ok M fuel mA _ _ phB ho2
                try dsimp only at h
                rw [hres] at h
                try dsimp only at h
                rw [if_pos hne] at h
                simp at h
  · intro r m ps cs phA phB hlk hps hcs ho1 ho2 hres
    rw [attemptMatchPath, hlk]
    try dsimp only
    rw [hps, hcs]
    try dsimp only
    rw [ho1]
    try dsimp only
    rw [ho2]
    try dsimp only
    obtain ⟨mA, rfl⟩ := attemptMatchOpt_second_ok M fuel m _ _ phA ho1
    obtain ⟨mB, rfl⟩ := attemptMatchOpt_second_ok M fuel mA _ _ phB ho2
    try dsimp only
    rw [hres]
    try dsimp only
    rw [if_neg (fun hc => hc rfl)]

end Ssr

namespace Ssr

/-- Pattern path `foo` with a pre-recorded semantic target. -/
def patPathFoo : SyntaxNode :=
  .mk .path [.node (.mk .pathSegment [.node (.mk .nameRef [.token ⟨.ident, "foo", ⟨0, 3⟩⟩])])]

/-- Candidate path `bar`, textually different from the pattern path. -/
def codePathBar : SyntaxNode :=
  .mk .path [.node (.mk .pathSegment [.node (.mk .nameRef [.token ⟨.ident, "bar", ⟨10, 13⟩⟩])])]

/-- A matcher whose rule recorded that `patPathFoo` resolves to definition 5
and whose resolution service resolves every path to definition 5. -/
def pathMatcher : Matcher :=
  { sema :=
      { plainSema with
        resolvePath := fun n => if n.kind = SyntaxKind.path then some (.defn 5) else none }
    restrictRange := none
    rule :=
      { pattern :=
          { node := patPathFoo
            resolvedPaths := [(patPathFoo, ⟨.defn 5⟩)]
            ufcsFunctionCalls := []
            placeholdersByStandIn := [] }
        template := none
        index := 0 } }

/-- An empty match under construction for `codePathBar`. -/
def pathMatchAcc : MatchResult := ⟨⟨1, ⟨0, 0⟩⟩, codePathBar, [], [], 0, 0, []⟩

/-- Witness for C5: the pattern path `foo` accepts the textually different
candidate path `bar` in the recording phase because both resolve to
definition 5. -/
theorem c5_path_resolution_witness :
    attemptMatchPath pathMatcher 4 (.second pathMatchAcc) patPathFoo codePathBar =
      some (.ok (.second pathMatchAcc)) :=
  (c5_path_resolution pathMatcher 3 patPathFoo codePathBar).2.2.2 ⟨.defn 5⟩ pathMatchAcc
    (.mk .pathSegment [.node (.mk .nameRef [.token ⟨.ident, "foo", ⟨0, 3⟩⟩])])
    (.mk .pathSegment [.node (.mk .nameRef [.token ⟨.ident, "bar", ⟨10, 13⟩⟩])])
    (.second pathMatchAcc) (.second pathMatchAcc)
    (by rfl) (by rfl) (by rfl) (by rfl) (by rfl) (by rfl)

/-! ### C9: template-rendering failures abort acceptance -/

/-- If some template path resolves to a module-level definition for which no
use path exists at the match site, the render loop fails. -/
theorem renderTemplateLoop_member_fail (sema : Semantics) (module : Nat) :
    ∀ (paths : List (SyntaxNode × ResolvedPath)) (pr : SyntaxNode × ResolvedPath) (d : Nat),
      pr ∈ paths → pr.2.resolution = .defn d → sema.findUsePath module d = none →
      ∀ m m', renderTemplateLoop sema module paths m ≠ .ok m' := by
  intro paths
  induction paths with
  | nil => intro pr d hmem; simp at hmem
  | cons head rest ih =>
    intro pr d hmem hres hfup m m' h
    obtain ⟨path, rp⟩ := head
    rw [renderTemplateLoop] at h
    rcases List.mem_cons.mp hmem with heq | hmem'
    · subst heq
      rw [hres] at h
      dsimp only at h
      rw [hfup] at h
      simp at h
    · cases hr2 : rp.resolution with
      | defn d2 =>
        rw [hr2] at h
        dsimp only at h
        cases hf2 : sema.findUsePath module d2 with
        | none => rw [hf2] at h; simp at h
        | some mp =>
          rw [hf2] at h
          dsimp only at h
          exact ih pr d hmem' hres hfup _ m' h
      | nonDef n =>
        rw [hr2] at h
        dsimp only at h
        exact ih pr d hmem' hres hfup m m' h

/-- Claim C9: for a rule with a template where both matching phases
succeeded, a matched node with no enclosing module, or a template path that
resolved to a definition with no module-qualified path at the match site,
makes the overall `try_match` fail. -/
theorem c9_template_render_failure (rule : ResolvedRule) (code : SyntaxNode)
    (restrict : Option FileRange) (sema : Semantics) (fuel : Nat)
    (template : ResolvedPattern) (htpl : rule.template = some template) :
    (sema.scopeModule code = none →
      ∀ m, tryMatch rule code restrict sema fuel ≠ some (.ok m)) ∧
    (∀ module pr d, sema.scopeModule code = some module →
      pr ∈ template.resolvedPaths → pr.2.resolution = .defn d →
      sema.findUsePath module d = none →
      ∀ m, tryMatch rule code restrict sema fuel ≠ some (.ok m)) := by
  constructor
  · intro hmod m hTry
    rw [tryMatch] at hTry
    dsimp only at hTry
    cases h1 : attemptMatchNode ⟨sema, restrict, rule⟩ fuel .first rule.pattern.node code with
    | none => rw [h1] at hTry; simp at hTry
    | some r1 =>
      cases r1 with
      | error e => rw [h1] at hTry; simp at hTry
      | ok ph1 =>
        rw [h1] at hTry
        dsimp only at hTry
        cases hv : validateRange restrict (sema.originalRange code) with
        | error e => rw [hv] at hTry; simp at hTry
        | ok u =>
          rw [hv] at hTry
          dsimp only at hTry
          cases h2 : attemptMatchNode ⟨sema, restrict, rule⟩ fuel
              (.second
                { range := sema.originalRange code
                  matchedNode := code
                  placeholderValues := []
                  ignoredComments := []
                  ruleIndex := rule.index
                  depth := 0
                  renderedTemplatePaths := [] })
              rule.pattern.node code with
          | none => rw [h2] at hTry; simp at hTry
          | some r2 =>
            cases r2 with
            | error e => rw [h2] at hTry; simp at hTry
            | ok ph2 =>
              rw [h2] at hTry
              dsimp only at hTry
              obtain ⟨m2, rfl, hmn⟩ := attemptMatchNode_second_ok _ fuel _ _ _ ph2 h2
              rw [htpl] at hTry
              dsimp only at hTry
              rw [renderTemplatePaths] at hTry
              dsimp only at hTry
              rw [hmn, hmod] at hTry
              simp at hTry
  · intro module pr d hmod hmem hres hfup m hTry
    rw [tryMatch] at hTry
    dsimp only at hTry
    cases h1 : attemptMatchNode ⟨sema, restrict, rule⟩ fuel .first rule.pattern.node code with
    | none => rw [h1] at hTry; simp at hTry
    | some r1 =>
      cases r1 with
      | error e => rw [h1] at hTry; simp at hTry
      | ok ph1 =>
        rw [h1] at hTry
        dsimp only at hTry
        cases hv : validateRange restrict (sema.originalRange code) with
        | error e => rw [hv] at hTry; simp at hTry
        | ok u =>
          rw [hv] at hTry
          dsimp only at hTry
          cases h2 : attemptMatchNode ⟨sema, restrict, rule⟩ fuel
              (.second
                { range := sema.originalRange code
                  matchedNode := code
                  placeholderValues := []
                  ignoredComments := []
                  ruleIndex := rule.index
                  depth := 0
                  renderedTemplatePaths := [] })
              rule.pattern.node code with
          | none => rw [h2] at hTry; simp at hTry
          | some r2 =>
            cases r2 with
            | error e => rw [h2] at hTry; simp at hTry
            | ok ph2 =>
              rw [h2] at hTry
              dsimp only at hTry
              obtain ⟨m2, rfl, hmn⟩ := attemptMatchNode_second_ok _ fuel _ _ _ ph2 h2
              rw [htpl] at hTry
              dsimp only at hTry
              rw [renderTemplatePaths] at hTry
              dsimp only at hTry
              rw [hmn, hmod] at hTry
              dsimp only at hTry
              cases hloop : renderTemplateLoop sema module template.resolvedPaths
                  { range := m2.range
                    matchedNode := code
                    placeholderValues := m2.placeholderValues
                    ignoredComments := m2.ignoredComments
                    ruleIndex := m2.ruleIndex
                    depth := sema.ancestorsCount code
                    renderedTemplatePaths := m2.renderedTemplatePaths } with
              | error e => rw [hloop] at hTry; simp at hTry
              | ok mOut =>
                exact renderTemplateLoop_member_fail sema module template.resolvedPaths
                  pr d hmem hres hfup _ mOut hloop

end Ssr

namespace Ssr

/-- A one-token pattern/candidate node that matches itself. -/
def tinyPat : SyntaxNode := .mk (.other 3) [.token ⟨.other 4, "a", ⟨0, 1⟩⟩]

/-- A template carrying one path that resolved to definition 3. -/
def tinyTemplate : ResolvedPattern :=
  { node := patPathFoo
    resolvedPaths := [(patPathFoo, ⟨.defn 3⟩)]
    ufcsFunctionCalls := []
    placeholdersByStandIn := [] }

/-- A rule matching `tinyPat` with template `tinyTemplate`. -/
def tinyTemplateRule : ResolvedRule :=
  { pattern :=
      { node := tinyPat
        resolvedPaths := []
        ufcsFunctionCalls := []
        placeholdersByStandIn := [] }
    template := some tinyTemplate
    index := 0 }

/-- A resolution service in which no use path can be found. -/
def noUsePathSema : Semantics := { plainSema with findUsePath := fun _ _ => none }

/-- Witness for C9: the concrete rule matches `tinyPat` structurally (both
phases succeed — dropping the template yields a successful match), yet with
the template present the unresolvable template path makes `try_match`
fail. -/
theorem c9_template_render_failure_witness :
    (∀ m, tryMatch tinyTemplateRule tinyPat none noUsePathSema 10 ≠ some (.ok m)) ∧
    tryMatch { tinyTemplateRule with template := none } tinyPat none noUsePathSema 10 =
      some (.ok ⟨⟨1, ⟨0, 1⟩⟩, tinyPat, [], [], 0, 0, []⟩) :=
  ⟨fun m =>
    (c9_template_render_failure tinyTemplateRule tinyPat none noUsePathSema 10
        tinyTemplate (by rfl)).2 0 (patPathFoo, ⟨.defn 3⟩) 3 (by rfl)
      (by simp [tinyTemplate]) (by rfl) (by rfl) m,
    by rfl⟩

end Ssr

namespace Ssr

/-! ### C3: record-literal field lists -/

/-- Pattern field `b: 1` with a literal name. -/
def patFieldB1 : SyntaxNode :=
  .mk .recordExprField
    [ .node (.mk .nameRef [.token ⟨.ident, "b", ⟨0, 1⟩⟩])
    , .token ⟨.other 10, ":", ⟨1, 2⟩⟩
    , .node (.mk .literal [.token ⟨.other 9, "1", ⟨3, 4⟩⟩])]

/-- Pattern field `$n: $v` with a placeholder in the name position. -/
def patFieldPlaceholderName : SyntaxNode :=
  .mk .recordExprField
    [ .node (.mk .nameRef [.token ⟨.ident, "n", ⟨5, 6⟩⟩])
    , .token ⟨.other 10, ":", ⟨6, 7⟩⟩
    , .node (.mk (.other 2) [.token ⟨.ident, "v", ⟨8, 9⟩⟩])]

/-- Pattern field list `{ b: 1, $n: $v }`. -/
def patFieldList : SyntaxNode :=
  .mk .recordExprFieldList [.node patFieldB1, .node patFieldPlaceholderName]

/-- Candidate field `b: 1`. -/
def codeFieldB1 : SyntaxNode :=
  .mk .recordExprField
    [ .node (.mk .nameRef [.token ⟨.ident, "b", ⟨20, 21⟩⟩])
    , .token ⟨.other 10, ":", ⟨21, 22⟩⟩
    , .node (.mk .literal [.token ⟨.other 9, "1", ⟨23, 24⟩⟩])]

/-- Candidate field `b: 2` (a duplicate name with a different value). -/
def codeFieldB2 : SyntaxNode :=
  .mk .recordExprField
    [ .node (.mk .nameRef [.token ⟨.ident, "b", ⟨25, 26⟩⟩])
    , .token ⟨.other 10, ":", ⟨26, 27⟩⟩
    , .node (.mk .literal [.token ⟨.other 9, "2", ⟨28, 29⟩⟩])]

/-- Candidate field list `{ b: 1, b: 2 }`. -/
def codeFieldList : SyntaxNode :=
  .mk .recordExprFieldList [.node codeFieldB1, .node codeFieldB2]

/-- The matcher for the field-list counterexample, with placeholders `$n`
and `$v`. -/
def recordMatcher : Matcher :=
  { sema := plainSema
    restrictRange := none
    rule :=
      { pattern :=
          { node := patFieldList
            resolvedPaths := []
            ufcsFunctionCalls := []
            placeholdersByStandIn := [("n", ⟨"n", []⟩), ("v", ⟨"v", []⟩)] }
        template := none
        index := 0 } }

/-- Counterexample for C3 as stated.  The pattern field list `{ b: 1, $n: $v }`
has a placeholder in a name position, so per the claim it should be matched
against `{ b: 1, b: 2 }` entirely by ordered structural comparison of
children — which succeeds (third conjunct).  The code instead first consumes
the pattern field `b: 1` from the name index, where the later duplicate
candidate field `b: 2` has replaced `b: 1`, and fails (second conjunct);
only a pattern field actually reached triggers the fallback. -/
theorem c3_counterexample :
    (recordMatcher.getPlaceholder
      (SyntaxElement.node (.mk .nameRef [.token ⟨.ident, "n", ⟨5, 6⟩⟩]))).isSome = true ∧
    attemptMatchNode recordMatcher 30 .first patFieldList codeFieldList =
      some (.error ⟨none⟩) ∧
    attemptMatchNodeChildren recordMatcher 30 .first patFieldList codeFieldList =
      some (.ok .first) :=
  ⟨rfl, rfl, rfl⟩

/-- Distinctness of the keys of an association list. -/
def keysNodup {α : Type} (l : List (String × α)) : Prop :=
  (l.map Prod.fst).Nodup

/-- Keys after an insert are the new key plus the old keys. -/
theorem mem_keys_insertAssoc {α : Type} :
    ∀ (l : List (String × α)) (k : String) (v : α) (a : String),
      a ∈ (insertAssoc l k v).map Prod.fst ↔ a = k ∨ a ∈ l.map Prod.fst := by
  intro l
  induction l with
  | nil => intro k v a; simp [insertAssoc]
  | cons p rest ih =>
    intro k v a
    obtain ⟨k', v'⟩ := p
    by_cases hk : k' = k
    · subst hk
      simp [insertAssoc]
    · simp only [insertAssoc, if_neg hk, List.map_cons, List.mem_cons, ih]
      tauto

/-- Inserting preserves key distinctness. -/
theorem insertAssoc_keysNodup {α : Type} :
    ∀ (l : List (String × α)) (k : String) (v : α),
      keysNodup l → keysNodup (insertAssoc l k v) := by
  intro l
  induction l with
  | nil => intro k v _; simp [keysNodup, insertAssoc]
  | cons p rest ih =>
    intro k v h
    obtain ⟨k', v'⟩ := p
    simp only [keysNodup, List.map_cons, List.nodup_cons] at h
    by_cases hk : k' = k
    · subst hk
      have hins : insertAssoc ((k', v') :: rest) k' v = (k', v) :: rest := by
        rw [insertAssoc, if_pos rfl]
      rw [hins]
      simpa [keysNodup] using h
    · simp only [insertAssoc, if_neg hk, keysNodup, List.map_cons, List.nodup_cons]
      constructor
      · intro hmem
        rcases (mem_keys_insertAssoc rest k v k').mp hmem with h1 | h1
        · exact hk h1
        · exact h.1 h1
      · exact ih k v h.2

/-- The field index always has distinct keys. -/
theorem buildFieldsByName_keysNodup (code : SyntaxNode) :
    keysNodup (buildFieldsByName code) := by
  unfold buildFieldsByName
  have main : ∀ (children : List SyntaxNode) (acc : List (String × SyntaxNode)),
      keysNodup acc →
      keysNodup (children.foldl
        (fun acc child =>
          match castRecordExprField child with
          | some record =>
            match fieldName record with
            | some name => insertAssoc acc name.text child
            | none => acc
          | none => acc)
        acc) := by
    intro children
    induction children with
    | nil => intro acc h; exact h
    | cons child rest ih =>
      intro acc h
      rw [List.foldl_cons]
      apply ih
      cases hc : castRecordExprField child with
      | none => simpa [hc] using h
      | some record =>
        cases hf : fieldName record with
        | none => simpa [hc, hf] using h
        | some name => simpa [hc, hf] using insertAssoc_keysNodup acc name.text child h
  exact main code.children [] (by simp [keysNodup])

/-- The keys of the remainder of a removal are among the original keys. -/
theorem removeAssoc_keys_subset {α : Type} :
    ∀ (l : List (String × α)) (k : String) (v : α) (r : List (String × α)),
      removeAssoc l k = some (v, r) →
      ∀ a, a ∈ r.map Prod.fst → a ∈ l.map Prod.fst := by
  intro l
  induction l with
  | nil => intro k v r h; simp [removeAssoc] at h
  | cons p rest ih =>
    intro k v r h a ha
    obtain ⟨k', v'⟩ := p
    by_cases hk : k' = k
    · rw [removeAssoc, if_pos hk] at h
      injection h with h1
      injection h1 with h1 h2
      subst h2
      simp only [List.map_cons, List.mem_cons]
      exact Or.inr ha
    · rw [removeAssoc, if_neg hk] at h
      cases hrm : removeAssoc rest k with
      | none => rw [hrm] at h; simp at h
      | some pr =>
        obtain ⟨v2, r2⟩ := pr
        rw [hrm] at h
        dsimp only at h
        injection h with h1
        injection h1 with h1 h2
        subst h1
        subst h2
        simp only [List.map_cons, List.mem_cons] at ha ⊢
        rcases ha with ha | ha
        · exact Or.inl ha
        · exact Or.inr (ih k _ r2 hrm a ha)

/-- Removal preserves key distinctness. -/
theorem removeAssoc_keysNodup {α : Type} :
    ∀ (l : List (String × α)) (k : String) (v : α) (r : List (String × α)),
      removeAssoc l k = some (v, r) → keysNodup l → keysNodup r := by
  intro l
  induction l with
  | nil => intro k v r h; simp [removeAssoc] at h
  | cons p rest ih =>
    intro k v r h hn
    obtain ⟨k', v'⟩ := p
    simp only [keysNodup, List.map_cons, List.nodup_cons] at hn
    by_cases hk : k' = k
    · rw [removeAssoc, if_pos hk] at h
      injection h with h1
      injection h1 with h1 h2
      subst h2
      exact hn.2
    · rw [removeAssoc, if_neg hk] at h
      cases hrm : removeAssoc rest k with
      | none => rw [hrm] at h; simp at h
      | some pr =>
        obtain ⟨v2, r2⟩ := pr
        rw [hrm] at h
        dsimp only at h
        injection h with h1
        injection h1 with h1 h2
        subst h1
        subst h2
        simp only [keysNodup, List.map_cons, List.nodup_cons]
        exact ⟨fun hmem => hn.1 (removeAssoc_keys_subset rest k _ r2 hrm k' hmem),
          ih k _ r2 hrm hn.2⟩

/-- Removal of a key behaves consistently across permutations of a
distinctly-keyed association list. -/
theorem removeAssoc_perm {α : Type} {l l' : List (String × α)} (hp : l.Perm l')
    (k : String) :
    keysNodup l →
    ((removeAssoc l k = none ∧ removeAssoc l' k = none) ∨
      ∃ v r r', removeAssoc l k = some (v, r) ∧ removeAssoc l' k = some (v, r') ∧
        r.Perm r' ∧ keysNodup r) := by
  induction hp with
  | nil => intro _; exact Or.inl ⟨rfl, rfl⟩
  | @cons x t t' hrest ih =>
    intro hn
    obtain ⟨kx, vx⟩ := x
    simp only [keysNodup, List.map_cons, List.nodup_cons] at hn
    by_cases hk : kx = k
    · subst hk
      exact Or.inr ⟨vx, t, t', by rw [removeAssoc, if_pos rfl],
        by rw [removeAssoc, if_pos rfl], hrest, hn.2⟩
    · rcases ih hn.2 with ⟨h1, h2⟩ | ⟨v, r, r', h1, h2, hpr, hnr⟩
      · exact Or.inl ⟨by rw [removeAssoc, if_neg hk, h1],
          by rw [removeAssoc, if_neg hk, h2]⟩
      · refine Or.inr ⟨v, (kx, vx) :: r, (kx, vx) :: r',
          by rw [removeAssoc, if_neg hk, h1],
          by rw [removeAssoc, if_neg hk, h2], List.Perm.cons _ hpr, ?_⟩
        simp only [keysNodup, List.map_cons, List.nodup_cons]
        exact ⟨fun hmem => hn.1 (removeAssoc_keys_subset t k v r h1 kx hmem), hnr⟩
  | @swap x y t =>
    intro hn
    obtain ⟨kx, vx⟩ := x
    obtain ⟨ky, vy⟩ := y
    simp only [keysNodup, List.map_cons, List.nodup_cons, List.mem_cons] at hn
    have hxy : ky ≠ kx := fun hc => hn.1 (Or.inl hc)
    by_cases hkx : kx = k
    · subst hkx
      refine Or.inr ⟨vx, (ky, vy) :: t, (ky, vy) :: t, ?_, ?_, List.Perm.refl _, ?_⟩
      · rw [removeAssoc, if_neg hxy, removeAssoc, if_pos rfl]
      · rw [removeAssoc, if_pos rfl]
      · simp only [keysNodup, List.map_cons, List.nodup_cons]
        exact ⟨fun hmem => hn.1 (Or.inr hmem), hn.2.2⟩
    · by_cases hky : ky = k
      · subst hky
        refine Or.inr ⟨vy, (kx, vx) :: t, (kx, vx) :: t, ?_, ?_, List.Perm.refl _, ?_⟩
        · rw [removeAssoc, if_pos rfl]
        · rw [removeAssoc, if_neg hkx, removeAssoc, if_pos rfl]
        · simp only [keysNodup, List.map_cons, List.nodup_cons]
          exact ⟨hn.2.1, hn.2.2⟩
      · cases hrm : removeAssoc t k with
        | none =>
          exact Or.inl ⟨by rw [removeAssoc, if_neg hky, removeAssoc, if_neg hkx, hrm],
            by rw [removeAssoc, if_neg hkx, removeAssoc, if_neg hky, hrm]⟩
        | some pr =>
          obtain ⟨v, r⟩ := pr
          refine Or.inr ⟨v, (ky, vy) :: (kx, vx) :: r, (kx, vx) :: (ky, vy) :: r,
            by rw [removeAssoc, if_neg hky, removeAssoc, if_neg hkx, hrm],
            by rw [removeAssoc, if_neg hkx, removeAssoc, if_neg hky, hrm],
            List.Perm.swap _ _ _, ?_⟩
          have hsub := removeAssoc_keys_subset t k v r hrm
          have hnr := removeAssoc_keysNodup t k v r hrm hn.2.2
          simp only [keysNodup, List.map_cons, List.nodup_cons, List.mem_cons]
          refine ⟨?_, ?_, hnr⟩
          · rintro (hc | hmem)
            · exact hxy hc
            · exact hn.1 (Or.inr (hsub _ hmem))
          · intro hmem
            exact hn.2.1 (hsub _ hmem)
  | @trans t m t' hp1 hp2 ih1 ih2 =>
    intro hn
    have hnm : keysNodup m := ((hp1.map Prod.fst).nodup_iff).mp hn
    rcases ih1 hn with ⟨h1, h2⟩ | ⟨v, r, rm, h1, h2, hpr, hnr⟩
    · rcases ih2 hnm with ⟨h3, h4⟩ | ⟨v, r2, r2', h3, h4, _, _⟩
      · exact Or.inl ⟨h1, h4⟩
      · rw [h2] at h3; exact absurd h3 (by simp)
    · rcases ih2 hnm with ⟨h3, h4⟩ | ⟨v2, r2, r2', h3, h4, hpr2, hnr2⟩
      · rw [h2] at h3; exact absurd h3 (by simp)
      · rw [h2] at h3
        injection h3 with h3
        injection h3 with hv hr
        subst hv
        subst hr
        exact Or.inr ⟨v, r, r2', h1, h4, hpr.trans hpr2, hnr⟩

end Ssr

namespace Ssr

/-- One-step unfolding of `recordFieldLoop` at positive fuel. -/
theorem recordFieldLoop_succ (M : Matcher) (fuel : Nat) (ph : Phase) (P C : SyntaxNode)
    (pe : List SyntaxElement) (fields : List (String × SyntaxNode)) :
    recordFieldLoop M (fuel + 1) ph P C pe fields =
      (match pe with
      | [] =>
        match fields with
        | [] => some (.ok ph)
        | _ :: _ => some (.error ⟨none⟩)
      | SyntaxElement.node p :: rest =>
        match p.firstChildOrToken with
        | some nameElement =>
          if (M.getPlaceholder nameElement).isSome then
            attemptMatchNodeChildren M fuel ph P C
          else
            match onlyIdent nameElement with
            | some ident =>
              match removeAssoc fields ident.text with
              | none => some (.error ⟨none⟩)
              | some (codeRecord, fields') =>
                match attemptMatchNode M fuel ph p codeRecord with
                | none => none
                | some (.error e) => some (.error e)
                | some (.ok ph1) => recordFieldLoop M fuel ph1 P C rest fields'
            | none => recordFieldLoop M fuel ph P C rest fields
        | none => recordFieldLoop M fuel ph P C rest fields
      | SyntaxElement.token _ :: rest => recordFieldLoop M fuel ph P C rest fields) := rfl

/-- With no placeholder-named pattern fields, the field loop's verdict
depends on the candidate only through the name-keyed index, and is
invariant under permutation of a distinctly-keyed index. -/
theorem recordFieldLoop_perm (M : Matcher) :
    ∀ (fuel : Nat) (ph : Phase) (P C C' : SyntaxNode) (pe : List SyntaxElement)
      (fields fields' : List (String × SyntaxNode)),
      (∀ p ne, SyntaxElement.node p ∈ pe → p.firstChildOrToken = some ne →
        M.getPlaceholder ne = none) →
      fields.Perm fields' → keysNodup fields →
      recordFieldLoop M fuel ph P C pe fields = recordFieldLoop M fuel ph P C' pe fields' := by
  intro fuel
  induction fuel with
  | zero => intro ph P C C' pe fields fields' _ _ _; simp [recordFieldLoop]
  | succ fuel ih =>
    intro ph P C C' pe fields fields' hnp hperm hnd
    rw [recordFieldLoop_succ M fuel ph P C pe fields,
      recordFieldLoop_succ M fuel ph P C' pe fields']
    cases pe with
    | nil =>
      cases fields with
      | nil =>
        have h0 : fields' = [] := List.Perm.eq_nil hperm.symm
        subst h0
        rfl
      | cons f fs =>
        cases fields' with
        | nil => exact absurd (List.Perm.eq_nil hperm) (by simp)
        | cons f' fs' => rfl
    | cons e rest =>
      have hnp' : ∀ p ne, SyntaxElement.node p ∈ rest → p.firstChildOrToken = some ne →
          M.getPlaceholder ne = none :=
        fun p ne hm => hnp p ne (List.mem_cons_of_mem _ hm)
      cases e with
      | token t => exact ih ph P C C' rest fields fields' hnp' hperm hnd
      | node p =>
        dsimp only
        cases hfc : p.firstChildOrToken with
        | none => exact ih ph P C C' rest fields fields' hnp' hperm hnd
        | some ne =>
          dsimp only
          have hpl : M.getPlaceholder ne = none :=
            hnp p ne (List.mem_cons_self _ _) hfc
          rw [hpl]
          simp only [Option.isSome_none, Bool.false_eq_true, if_false]
          cases hoi : onlyIdent ne with
          | none => exact ih ph P C C' rest fields fields' hnp' hperm hnd
          | some ident =>
            dsimp only
            rcases removeAssoc_perm hperm ident.text hnd with ⟨h1, h2⟩ |
              ⟨v, r, r', h1, h2, hpr, hnr⟩
            · rw [h1, h2]
            · rw [h1, h2]
              dsimp only
              cases hn : attemptMatchNode M fuel ph p v with
              | none => rfl
              | some rres =>
                cases rres with
                | error e2 => rfl
                | ok ph1 => exact ih ph1 P C C' rest r r' hnp' hpr hnr

/-- Claim C3 (amended): for record field lists, the candidate's fields are
indexed by field name (a later duplicate replacing an earlier one); a
pattern field with a literal name consumes the same-named candidate field
from the index, failing hard when the index has none; candidate fields left
in the index after the pattern fields are exhausted fail the match; a
pattern field with a placeholder in the name position falls back — at the
point it is encountered — to ordered structural comparison of the full
child lists (earlier pattern fields have already been consumed by name);
and when no pattern field is placeholder-named, the verdict is
order-independent: invariant under permutation of the (distinctly-keyed)
name index. -/
theorem c3_field_list_amended (M : Matcher) (fuel : Nat) (ph : Phase) (P C : SyntaxNode) :
    (attemptMatchRecordFieldList M (fuel + 1) ph P C =
      recordFieldLoop M fuel ph P C P.childrenWithTokens (buildFieldsByName C)) ∧
    (∀ p rest fields ne ident, p.firstChildOrToken = some ne →
      M.getPlaceholder ne = none → onlyIdent ne = some ident →
      recordFieldLoop M (fuel + 1) ph P C (SyntaxElement.node p :: rest) fields =
        (match removeAssoc fields ident.text with
        | none => some (.error ⟨none⟩)
        | some (codeRecord, fields') =>
          match attemptMatchNode M fuel ph p codeRecord with
          | none => none
          | some (.error e) => some (.error e)
          | some (.ok ph1) => recordFieldLoop M fuel ph1 P C rest fields')) ∧
    (∀ f fs, recordFieldLoop M (fuel + 1) ph P C [] (f :: fs) = some (.error ⟨none⟩)) ∧
    (∀ p rest fields ne, p.firstChildOrToken = some ne →
      (M.getPlaceholder ne).isSome →
      recordFieldLoop M (fuel + 1) ph P C (SyntaxElement.node p :: rest) fields =
        attemptMatchNodeChildren M fuel ph P C) ∧
    (∀ C', (∀ p ne, SyntaxElement.node p ∈ P.childrenWithTokens →
        p.firstChildOrToken = some ne → M.getPlaceholder ne = none) →
      (buildFieldsByName C).Perm (buildFieldsByName C') →
      attemptMatchRecordFieldList M (fuel + 1) ph P C =
        attemptMatchRecordFieldList M (fuel + 1) ph P C') := by
  refine ⟨rfl, ?_, fun f fs => rfl, ?_, ?_⟩
  · intro p rest fields ne ident hfc hpl hoi
    rw [recordFieldLoop_succ]
    dsimp only
    rw [hfc]
    dsimp only
    rw [hpl]
    simp only [Option.isSome_none, Bool.false_eq_true, if_false]
    rw [hoi]
  · intro p rest fields ne hfc hps
    rw [recordFieldLoop_succ]
    dsimp only
    rw [hfc]
    dsimp only
    rw [if_pos hps]
  · intro C' hnp hperm
    show recordFieldLoop M fuel ph P C P.childrenWithTokens (buildFieldsByName C) =
      recordFieldLoop M fuel ph P C' P.childrenWithTokens (buildFieldsByName C')
    exact recordFieldLoop_perm M fuel ph P C C' P.childrenWithTokens _ _ hnp hperm
      (buildFieldsByName_keysNodup C)

end Ssr

namespace Ssr

/-- Pattern field `a: $x`. -/
def patRecFieldA : SyntaxNode :=
  .mk .recordExprField
    [ .node (.mk .nameRef [.token ⟨.ident, "a", ⟨0, 1⟩⟩])
    , .token ⟨.other 10, ":", ⟨1, 2⟩⟩
    , .node (.mk (.other 2) [.token ⟨.ident, "x", ⟨3, 4⟩⟩])]

/-- Pattern field `b: $y`. -/
def patRecFieldB : SyntaxNode :=
  .mk .recordExprField
    [ .node (.mk .nameRef [.token ⟨.ident, "b", ⟨5, 6⟩⟩])
    , .token ⟨.other 10, ":", ⟨6, 7⟩⟩
    , .node (.mk (.other 2) [.token ⟨.ident, "y", ⟨8, 9⟩⟩])]

/-- Pattern field list `{ a: $x, b: $y }` with literal names. -/
def patFieldListAB : SyntaxNode :=
  .mk .recordExprFieldList [.node patRecFieldA, .node patRecFieldB]

/-- Candidate field `a: 1`. -/
def codeRecFieldA : SyntaxNode :=
  .mk .recordExprField
    [ .node (.mk .nameRef [.token ⟨.ident, "a", ⟨20, 21⟩⟩])
    , .token ⟨.other 10, ":", ⟨21, 22⟩⟩
    , .node (.mk .literal [.token ⟨.other 9, "1", ⟨23, 24⟩⟩])]

/-- Candidate field `b: 2`. -/
def codeRecFieldB : SyntaxNode :=
  .mk .recordExprField
    [ .node (.mk .nameRef [.token ⟨.ident, "b", ⟨25, 26⟩⟩])
    , .token ⟨.other 10, ":", ⟨26, 27⟩⟩
    , .node (.mk .literal [.token ⟨.other 9, "2", ⟨28, 29⟩⟩])]

/-- Candidate `{ a: 1, b: 2 }`. -/
def codeFieldsAB : SyntaxNode :=
  .mk .recordExprFieldList [.node codeRecFieldA, .node codeRecFieldB]

/-- Candidate `{ b: 2, a: 1 }`: the same fields in the opposite order. -/
def codeFieldsBA : SyntaxNode :=
  .mk .recordExprFieldList [.node codeRecFieldB, .node codeRecFieldA]

/-- The matcher for the order-independence witness, with value placeholders
`$x` and `$y` but literal field names. -/
def fieldOrderMatcher : Matcher :=
  { sema := plainSema
    restrictRange := none
    rule :=
      { pattern :=
          { node := patFieldListAB
            resolvedPaths := []
            ufcsFunctionCalls := []
            placeholdersByStandIn := [("x", ⟨"x", []⟩), ("y", ⟨"y", []⟩)] }
        template := none
        index := 0 } }

/-- Witness for C3 (amended): `{ a: $x, b: $y }` matched against
`{ a: 1, b: 2 }` and against `{ b: 2, a: 1 }` gives the same verdict —
acceptance. -/
theorem c3_field_list_amended_witness :
    attemptMatchRecordFieldList fieldOrderMatcher 20 .first patFieldListAB codeFieldsAB =
      attemptMatchRecordFieldList fieldOrderMatcher 20 .first patFieldListAB codeFieldsBA ∧
    attemptMatchRecordFieldList fieldOrderMatcher 20 .first patFieldListAB codeFieldsAB =
      some (.ok .first) := by
  constructor
  · apply (c3_field_list_amended fieldOrderMatcher 19 .first patFieldListAB
      codeFieldsAB).2.2.2.2 codeFieldsBA
    · intro p ne hm hfc
      simp only [patFieldListAB, SyntaxNode.childrenWithTokens, List.mem_cons,
        List.not_mem_nil, or_false] at hm
      rcases hm with h | h
      · have hp : p = patRecFieldA := by injection h
        subst hp
        have hne : ne = SyntaxElement.node (.mk .nameRef [.token ⟨.ident, "a", ⟨0, 1⟩⟩]) := by
          injection hfc.symm
        subst hne
        rfl
      · have hp : p = patRecFieldB := by injection h
        subst hp
        have hne : ne = SyntaxElement.node (.mk .nameRef [.token ⟨.ident, "b", ⟨5, 6⟩⟩]) := by
          injection hfc.symm
        subst hne
        rfl
    · show List.Perm [("a", codeRecFieldA), ("b", codeRecFieldB)]
        [("b", codeRecFieldB), ("a", codeRecFieldA)]
      exact List.Perm.swap _ _ _
  · rfl

end Ssr

namespace Ssr

/-! ### C2 and C10: token-tree placeholder capture -/

/-- The terminator test the placeholder scan applies to a candidate
element: its (first) token's text equals `next_pattern_token`. -/
def stopsAt (nextTok : Option String) (e : SyntaxElement) : Bool :=
  (e.firstToken.map fun t => t.text) == nextTok

/-- Characterization of the placeholder scan on a stream of plain tokens:
it consumes tokens while the terminator test fails; on a terminator it
consumes the following pattern element and leaves the rest of the stream;
at end of stream it leaves the pattern untouched.  The last consumed
element is the last of the scanned prefix (or the initial element when the
prefix is empty), and the phase is untouched. -/
theorem scanPlaceholder_tokens (M : Matcher) (nextTok : Option String) :
    ∀ (children : List SyntaxElement) (fuel : Nat) (ph : Phase)
      (pat : List SyntaxElement) (last : SyntaxElement),
      (∀ e ∈ children, ∃ t, e = SyntaxElement.token t) →
      scanPlaceholder M (children.length + fuel + 1) ph pat children nextTok last =
        (match children.dropWhile (fun e => ! stopsAt nextTok e) with
        | [] => some (.ok (ph, pat,
            [], (children.takeWhile (fun e => ! stopsAt nextTok e)).getLastD last))
        | _ :: restAfter => some (.ok (ph, pat.tail,
            restAfter, (children.takeWhile (fun e => ! stopsAt nextTok e)).getLastD last))) := by
  intro children
  induction children with
  | nil =>
    intro fuel ph pat last _
    simp [scanPlaceholder_succ, List.dropWhile, List.takeWhile]
  | cons c cs ih =>
    intro fuel ph pat last hts
    obtain ⟨t, rfl⟩ := hts _ (List.mem_cons_self _ _)
    rw [show (SyntaxElement.token t :: cs).length + fuel + 1 = (cs.length + fuel + 1) + 1 by
      simp [List.length_cons]; omega]
    rw [scanPlaceholder_succ]
    dsimp only
    by_cases hstop : (some t.text : Option String) = nextTok
    · rw [if_pos hstop]
      have hs : stopsAt nextTok (SyntaxElement.token t) = true := by
        simp [stopsAt, SyntaxElement.firstToken, hstop]
      simp [List.dropWhile_cons, List.takeWhile_cons, hs]
    · rw [if_neg hstop]
      have hs : stopsAt nextTok (SyntaxElement.token t) = false := by
        simp [stopsAt, SyntaxElement.firstToken]
        intro hc
        exact absurd (by rw [hc]) hstop
      rw [ih fuel ph pat (SyntaxElement.token t)
        (fun e he => hts e (List.mem_cons_of_mem _ he))]
      simp [List.dropWhile_cons, List.takeWhile_cons, hs, List.getLastD_cons,
        -List.getLastD_eq_getLast?]

/-- The placeholder step of the token-tree loop over a token stream: the
first remaining candidate element is consumed into the capture
unconditionally, the scan runs over the elements after it, the recorded
binding is a range-only `PlaceholderMatch` covering first through last
consumed element, and the loop continues after the terminator. -/
theorem tokenTreeGo_placeholder_step (M : Matcher) (fuel : Nat) (m : MatchResult)
    (pl : Placeholder) (p0 c0 : SyntaxElement) (pat1 cs : List SyntaxElement) (fid : Nat)
    (hpl : M.getPlaceholder p0 = some pl)
    (hts : ∀ e ∈ cs, ∃ t, e = SyntaxElement.token t) :
    attemptMatchTokenTreeGo M (cs.length + fuel + 2) (.second m) (p0 :: pat1)
        (c0 :: cs) fid =
      (let nextTok := nextPatternTokenText pat1.head?
      let newLast := (cs.takeWhile (fun e => ! stopsAt nextTok e)).getLastD c0
      let m2 := m.insertPlaceholderValue pl.ident
        (PlaceholderMatch.fromRange ⟨fid, c0.textRange.cover newLast.textRange⟩)
      match cs.dropWhile (fun e => ! stopsAt nextTok e) with
      | [] => attemptMatchTokenTreeGo M (cs.length + fuel + 1) (.second m2) pat1 [] fid
      | _ :: restAfter =>
        attemptMatchTokenTreeGo M (cs.length + fuel + 1) (.second m2) pat1.tail
          restAfter fid) := by
  have h2 : cs.length + fuel + 2 = (cs.length + fuel + 1) + 1 := rfl
  rw [h2, attemptMatchTokenTreeGo_succ]
  dsimp only
  have hb : ((p0 :: pat1).head?.bind fun p => M.getPlaceholder p) = some pl := by
    simp [hpl]
  rw [hb]
  dsimp only
  simp only [List.tail_cons]
  rw [scanPlaceholder_tokens M (nextPatternTokenText pat1.head?) cs fuel (.second m)
    pat1 c0 hts]
  cases hdrop : cs.dropWhile
      (fun e => ! stopsAt (nextPatternTokenText pat1.head?) e) with
  | nil => dsimp only [Phase.recordTokenRange]
  | cons d restAfter => dsimp only [Phase.recordTokenRange]

/-- Claim C10: inside a macro-argument token tree, a placeholder's capture
is never empty: with no candidate element remaining the loop fails on the
leftover pattern, and whenever at least one candidate element remains the
placeholder unconditionally consumes the first remaining element into its
captured range — even if it equals the terminator — with the scan for the
terminating token starting only at the element after it. -/
theorem c10_token_tree_first_element (M : Matcher) (fuel : Nat) :
    (∀ (ph : Phase) (pe : SyntaxElement) (prest : List SyntaxElement) (fid : Nat),
      attemptMatchTokenTreeGo M (fuel + 1) ph (pe :: prest) [] fid =
        some (.error ⟨none⟩)) ∧
    (∀ (m : MatchResult) (pl : Placeholder) (p0 c0 : SyntaxElement)
        (pat1 cs : List SyntaxElement) (fid : Nat),
      M.getPlaceholder p0 = some pl →
      (∀ e ∈ cs, ∃ t, e = SyntaxElement.token t) →
      attemptMatchTokenTreeGo M (cs.length + fuel + 2) (.second m) (p0 :: pat1)
          (c0 :: cs) fid =
        (let nextTok := nextPatternTokenText pat1.head?
        let newLast := (cs.takeWhile (fun e => ! stopsAt nextTok e)).getLastD c0
        let m2 := m.insertPlaceholderValue pl.ident
          (PlaceholderMatch.fromRange ⟨fid, c0.textRange.cover newLast.textRange⟩)
        match cs.dropWhile (fun e => ! stopsAt nextTok e) with
        | [] => attemptMatchTokenTreeGo M (cs.length + fuel + 1) (.second m2) pat1 [] fid
        | _ :: restAfter =>
          attemptMatchTokenTreeGo M (cs.length + fuel + 1) (.second m2) pat1.tail
            restAfter fid)) :=
  ⟨fun ph pe prest fid => rfl,
    fun m pl p0 c0 pat1 cs fid hpl hts =>
      tokenTreeGo_placeholder_step M fuel m pl p0 c0 pat1 cs fid hpl hts⟩

/-- Token-tree pattern `$x a`: a placeholder followed by the literal token
`a`. -/
def patTokenTree : SyntaxNode :=
  .mk .tokenTree [.token ⟨.ident, "x", ⟨0, 1⟩⟩, .token ⟨.ident, "a", ⟨2, 3⟩⟩]

/-- A candidate subtree whose first token is `a`. -/
def innerSubtree : SyntaxNode := .mk .tokenTree [.token ⟨.ident, "a", ⟨12, 13⟩⟩]

/-- Candidate token tree `1 (a) a`, where `(a)` stands for `innerSubtree`. -/
def codeTokenTree : SyntaxNode :=
  .mk .tokenTree
    [ .token ⟨.other 9, "1", ⟨10, 11⟩⟩
    , .node innerSubtree
    , .token ⟨.ident, "a", ⟨14, 15⟩⟩]

/-- Candidate token tree `1 b a` consisting only of tokens. -/
def codeTokensOnly : SyntaxNode :=
  .mk .tokenTree
    [ .token ⟨.other 9, "1", ⟨10, 11⟩⟩
    , .token ⟨.ident, "b", ⟨12, 13⟩⟩
    , .token ⟨.ident, "a", ⟨14, 15⟩⟩]

/-- The matcher for the token-tree examples, with placeholder `$x`. -/
def ttMatcher : Matcher :=
  { sema := plainSema
    restrictRange := none
    rule :=
      { pattern :=
          { node := patTokenTree
            resolvedPaths := []
            ufcsFunctionCalls := []
            placeholdersByStandIn := [("x", ⟨"x", []⟩)] }
        template := none
        index := 0 } }

/-- An empty match under construction for the token-tree examples. -/
def ttAcc : MatchResult := ⟨⟨1, ⟨0, 0⟩⟩, codeTokenTree, [], [], 0, 0, []⟩

/-- Witness for C10: in `$x a` against the token stream `a a`, the first
candidate token `a` (range ⟨10,11⟩) is textually equal to the literal
pattern token following the placeholder, yet is unconditionally consumed
into the capture; the scan then stops at the second `a`, so the recorded
binding covers exactly the first token. -/
theorem c10_token_tree_first_element_witness :
    attemptMatchTokenTreeGo ttMatcher 4 (.second ttAcc)
        [SyntaxElement.token ⟨.ident, "x", ⟨0, 1⟩⟩, SyntaxElement.token ⟨.ident, "a", ⟨2, 3⟩⟩]
        [SyntaxElement.token ⟨.ident, "a", ⟨10, 11⟩⟩,
          SyntaxElement.token ⟨.ident, "a", ⟨14, 15⟩⟩] 1 =
      some (.ok (.second (ttAcc.insertPlaceholderValue "x"
        (PlaceholderMatch.fromRange ⟨1, ⟨10, 11⟩⟩)))) :=
  (c10_token_tree_first_element ttMatcher 1).2 ttAcc ⟨"x", []⟩
    (SyntaxElement.token ⟨.ident, "x", ⟨0, 1⟩⟩)
    (SyntaxElement.token ⟨.ident, "a", ⟨10, 11⟩⟩)
    [SyntaxElement.token ⟨.ident, "a", ⟨2, 3⟩⟩]
    [SyntaxElement.token ⟨.ident, "a", ⟨14, 15⟩⟩] 1 (by rfl)
    (fun e he => ⟨⟨.ident, "a", ⟨14, 15⟩⟩, List.mem_singleton.mp he⟩)

/-- Counterexample for C2 as stated.  In `$x a` against `1 (a) a`, the
claim says the scan stops at the first candidate element that is a token —
or a subtree whose first token — textually equal to the following pattern
element `a`; that element is the subtree `(a)` (second conjunct), so the
claimed capture is `1` alone, range ⟨10,11⟩.  The code only lets a subtree
terminate the scan when the following pattern element is itself a subtree;
here it is a token, so the scan runs on and the recorded capture covers `1`
and the subtree `(a)` — range ⟨10,13⟩ ≠ ⟨10,11⟩ (first and third
conjuncts). -/
theorem c2_counterexample :
    attemptMatchTokenTree ttMatcher 30 (.second ttAcc) patTokenTree codeTokenTree =
      some (.ok (.second (ttAcc.insertPlaceholderValue "x"
        (PlaceholderMatch.fromRange ⟨1, ⟨10, 13⟩⟩)))) ∧
    innerSubtree.firstToken = some ⟨.ident, "a", ⟨12, 13⟩⟩ ∧
    (⟨10, 13⟩ : TextRange) ≠ (⟨10, 11⟩ : TextRange) :=
  ⟨rfl, rfl, by decide⟩

/-- Claim C2 (amended): inside a macro-argument token tree, a placeholder
consumes candidate elements by scanning forward until it encounters a
token textually equal to the first token of the pattern element that
follows the placeholder — a candidate subtree whose first token is so
equal terminates the scan only when that following pattern element is
itself a subtree (which is then matched recursively against it); otherwise
such a subtree is consumed into the capture — or until the stream ends;
the binding recorded in Phase Two carries only a source range spanning
from the first to the last consumed element, with no subtree handle. -/
theorem c2_token_tree_capture_amended (M : Matcher) (fuel : Nat) :
    (∀ r, (PlaceholderMatch.fromRange r).node = none ∧
      (PlaceholderMatch.fromRange r).range = r) ∧
    (∀ (m : MatchResult) (P C : SyntaxNode) (pl : Placeholder) (p0 c0 : SyntaxElement)
        (pat1 cs : List SyntaxElement),
      patternChildren P = p0 :: pat1 →
      C.childrenWithTokens = c0 :: cs →
      M.getPlaceholder p0 = some pl →
      (∀ e ∈ cs, ∃ t, e = SyntaxElement.token t) →
      attemptMatchTokenTree M (cs.length + fuel + 3) (.second m) P C =
        (let fid := (M.sema.originalRange C).fileId
        let nextTok := nextPatternTokenText pat1.head?
        let newLast := (cs.takeWhile (fun e => ! stopsAt nextTok e)).getLastD c0
        let m2 := m.insertPlaceholderValue pl.ident
          (PlaceholderMatch.fromRange ⟨fid, c0.textRange.cover newLast.textRange⟩)
        match cs.dropWhile (fun e => ! stopsAt nextTok e) with
        | [] => attemptMatchTokenTreeGo M (cs.length + fuel + 1) (.second m2) pat1 [] fid
        | _ :: restAfter =>
          attemptMatchTokenTreeGo M (cs.length + fuel + 1) (.second m2) pat1.tail
            restAfter fid)) ∧
    (∀ (ph : Phase) (p n : SyntaxNode) (patRest rest : List SyntaxElement)
        (nextTok : Option String) (last : SyntaxElement) (ft : SyntaxToken),
      n.firstToken = some ft → (some ft.text : Option String) = nextTok →
      scanPlaceholder M (fuel + 1) ph (SyntaxElement.node p :: patRest)
          (SyntaxElement.node n :: rest) nextTok last =
        (match attemptMatchTokenTree M fuel ph p n with
        | none => none
        | some (.error e) => some (.error e)
        | some (.ok ph1) => some (.ok (ph1, patRest, rest, last)))) ∧
    (∀ (ph : Phase) (pt : SyntaxToken) (patRest rest : List SyntaxElement)
        (nextTok : Option String) (last : SyntaxElement) (n : SyntaxNode) (ft : SyntaxToken),
      n.firstToken = some ft → (some ft.text : Option String) = nextTok →
      scanPlaceholder M (fuel + 1) ph (SyntaxElement.token pt :: patRest)
          (SyntaxElement.node n :: rest) nextTok last =
        scanPlaceholder M fuel ph patRest rest nextTok (SyntaxElement.node n)) := by
  refine ⟨fun r => ⟨rfl, rfl⟩, ?_, ?_, ?_⟩
  · intro m P C pl p0 c0 pat1 cs hP hC hpl hts
    have h3 : cs.length + fuel + 3 = (cs.length + fuel + 2) + 1 := rfl
    rw [h3, attemptMatchTokenTree]
    rw [hP, hC]
    exact tokenTreeGo_placeholder_step M fuel m pl p0 c0 pat1 cs
      (M.sema.originalRange C).fileId hpl hts
  · intro ph p n patRest rest nextTok last ft hft heq
    rw [scanPlaceholder_succ]
    dsimp only
    rw [hft]
    dsimp only
    rw [if_pos heq]
  · intro ph pt patRest rest nextTok last n ft hft heq
    rw [scanPlaceholder_succ]
    dsimp only
    rw [hft]
    dsimp only
    rw [if_pos heq]
    rw [List.tail_cons]

/-- Witness for C2 (amended): `$x a` against the pure token stream `1 b a`
captures `1 b` (range ⟨10,13⟩) as a range-only binding and the match
accepts. -/
theorem c2_token_tree_capture_amended_witness :
    attemptMatchTokenTree ttMatcher 5 (.second ttAcc) patTokenTree codeTokensOnly =
      some (.ok (.second (ttAcc.insertPlaceholderValue "x"
        (PlaceholderMatch.fromRange ⟨1, ⟨10, 13⟩⟩)))) :=
  (c2_token_tree_capture_amended ttMatcher 0).2.1 ttAcc patTokenTree codeTokensOnly
    ⟨"x", []⟩ (SyntaxElement.token ⟨.ident, "x", ⟨0, 1⟩⟩)
    (SyntaxElement.token ⟨.other 9, "1", ⟨10, 11⟩⟩)
    [SyntaxElement.token ⟨.ident, "a", ⟨2, 3⟩⟩]
    [SyntaxElement.token ⟨.ident, "b", ⟨12, 13⟩⟩,
      SyntaxElement.token ⟨.ident, "a", ⟨14, 15⟩⟩]
    (by rfl) (by rfl) (by rfl)
    (by
      intro e he
      rcases List.mem_cons.mp he with h | h
      · exact ⟨⟨.ident, "b", ⟨12, 13⟩⟩, h⟩
      · exact ⟨⟨.ident, "a", ⟨14, 15⟩⟩, List.mem_singleton.mp h⟩)

end Ssr

namespace Ssr

/-! ### C1: the two phases agree, up to recording-phase-only checks -/

/-- In the first phase, recording a comment is a no-op. -/
theorem recordIgnoredComments_first (t : SyntaxToken) :
    Phase.recordIgnoredComments .first t = .first := by
  unfold Phase.recordIgnoredComments
  split <;> rfl

/-- In the second phase, recording a comment stays in the second phase. -/
theorem recordIgnoredComments_second (m : MatchResult) (t : SyntaxToken) :
    ∃ m', Phase.recordIgnoredComments (.second m) t = .second m' := by
  unfold Phase.recordIgnoredComments
  split
  · exact ⟨_, rfl⟩
  · exact ⟨m, rfl⟩

/-- A phase step out of the second phase lands in the second phase. -/
theorem PhaseStep.second_form {m : MatchResult} {ph : Phase}
    (h : PhaseStep (.second m) ph) : ∃ m', ph = .second m' := by
  cases ph with
  | first => exact absurd h (by simp [PhaseStep])
  | second m' => exact ⟨m', rfl⟩

/-- The trivia-skipping advance returns the same element and remainder in
both phases, and stays in the second phase when started there. -/
theorem nextNonTrivial_agree :
    ∀ (elems : List SyntaxElement) (m : MatchResult) (ph2 : Phase)
      (c2 : Option SyntaxElement) (r2 : List SyntaxElement),
      Phase.nextNonTrivial (.second m) elems = (ph2, c2, r2) →
      (∃ m1, ph2 = .second m1) ∧ Phase.nextNonTrivial .first elems = (.first, c2, r2) := by
  intro elems
  induction elems with
  | nil =>
    intro m ph2 c2 r2 h
    rw [Phase.nextNonTrivial] at h
    injection h with h1 h2
    injection h2 with h2 h3
    subst h1; subst h2; subst h3
    exact ⟨⟨m, rfl⟩, rfl⟩
  | cons e rest ih =>
    intro m ph2 c2 r2 h
    cases e with
    | token t =>
      rw [Phase.nextNonTrivial] at h
      rw [Phase.nextNonTrivial]
      by_cases ht : t.kind.isTrivia
      · rw [if_pos ht] at h
        rw [if_pos ht]
        obtain ⟨m', hm'⟩ := recordIgnoredComments_second m t
        rw [hm'] at h
        rw [recordIgnoredComments_first]
        exact ih m' ph2 c2 r2 h
      · rw [if_neg ht] at h
        rw [if_neg ht]
        injection h with h1 h2
        injection h2 with h2 h3
        subst h2; subst h3
        rw [recordIgnoredComments_first]
        refine ⟨?_, rfl⟩
        obtain ⟨m', hm'⟩ := recordIgnoredComments_second m t
        exact ⟨m', by rw [← h1, hm']⟩
    | node n =>
      rw [Phase.nextNonTrivial] at h
      rw [Phase.nextNonTrivial]
      injection h with h1 h2
      injection h2 with h2 h3
      subst h2; subst h3
      exact ⟨⟨m, h1.symm⟩, rfl⟩

/-- Token matching returns the same pattern remainder in both phases, and
stays in the second phase when started there. -/
theorem attemptMatchToken_agree (pat : List SyntaxElement) (t : SyntaxToken)
    (m : MatchResult) (ph2 : Phase) (pat' : List SyntaxElement)
    (h : attemptMatchToken (.second m) pat t = .ok (ph2, pat')) :
    (∃ m1, ph2 = .second m1) ∧ attemptMatchToken .first pat t = .ok (.first, pat') := by
  rw [attemptMatchToken.eq_def] at h
  rw [attemptMatchToken.eq_def]
  obtain ⟨m', hm'⟩ := recordIgnoredComments_second m t
  rw [hm'] at h
  rw [recordIgnoredComments_first]
  by_cases ht : t.kind.isTrivia
  · rw [if_pos ht] at h
    rw [if_pos ht]
    injection h with h1
    injection h1 with h1 h2
    subst h2
    exact ⟨⟨m', h1.symm⟩, rfl⟩
  · rw [if_neg ht] at h
    rw [if_neg ht]
    rcases pat with _ | ⟨e, rest⟩
    · simp at h
    · cases e with
      | token p =>
        dsimp only at h ⊢
        by_cases h1 : t.kind = SyntaxKind.comma ∧ isClosingToken p.kind
        · rw [if_pos h1] at h
          rw [if_pos h1]
          injection h with h2
          injection h2 with h2 h3
          subst h3
          exact ⟨⟨m', h2.symm⟩, rfl⟩
        · rw [if_neg h1] at h
          rw [if_neg h1]
          split at h
          · split at h
            · rename_i hqt
              try rw [if_pos hqt]
              injection h with h2
              injection h2 with h2 h3
              subst h3
              exact ⟨⟨m', h2.symm⟩, rfl⟩
            · simp at h
          · simp at h
          · simp at h
      | node p =>
        simp at h

end Ssr

namespace Ssr

/-- Phase Two refines Phase One: whenever a recording-phase run of any
matching routine accepts, the corresponding non-recording run accepts as
well, with the same non-phase outputs.  (The converse fails only at the
recording-phase-only checks: path resolution and placeholder range
validation.) -/
theorem phaseTwoRefinesPhaseOne : ∀ fuel : Nat,
    (∀ M m p c ph', attemptMatchNode M fuel (.second m) p c = some (.ok ph') →
      attemptMatchNode M fuel .first p c = some (.ok .first)) ∧
    (∀ M m p c ph', attemptMatchNodeKinded M fuel (.second m) p c = some (.ok ph') →
      attemptMatchNodeKinded M fuel .first p c = some (.ok .first)) ∧
    (∀ M m p c ph', attemptMatchNodeChildren M fuel (.second m) p c = some (.ok ph') →
      attemptMatchNodeChildren M fuel .first p c = some (.ok .first)) ∧
    (∀ M m pat ce ph', attemptMatchSequences M fuel (.second m) pat ce = some (.ok ph') →
      attemptMatchSequences M fuel .first pat ce = some (.ok .first)) ∧
    (∀ M m p c ph', attemptMatchRecordFieldList M fuel (.second m) p c = some (.ok ph') →
      attemptMatchRecordFieldList M fuel .first p c = some (.ok .first)) ∧
    (∀ M m p c pe fs ph', recordFieldLoop M fuel (.second m) p c pe fs = some (.ok ph') →
      recordFieldLoop M fuel .first p c pe fs = some (.ok .first)) ∧
    (∀ M m p c ph', attemptMatchTokenTree M fuel (.second m) p c = some (.ok ph') →
      attemptMatchTokenTree M fuel .first p c = some (.ok .first)) ∧
    (∀ M m pat ch fid ph', attemptMatchTokenTreeGo M fuel (.second m) pat ch fid =
        some (.ok ph') →
      attemptMatchTokenTreeGo M fuel .first pat ch fid = some (.ok .first)) ∧
    (∀ M m pat ch tok lst ph1 pat' rest' last',
      scanPlaceholder M fuel (.second m) pat ch tok lst =
        some (.ok (ph1, pat', rest', last')) →
      scanPlaceholder M fuel .first pat ch tok lst =
        some (.ok (.first, pat', rest', last'))) ∧
    (∀ M m p c ph', attemptMatchPath M fuel (.second m) p c = some (.ok ph') →
      attemptMatchPath M fuel .first p c = some (.ok .first)) ∧
    (∀ M m po co ph', attemptMatchOpt M fuel (.second m) po co = some (.ok ph') →
      attemptMatchOpt M fuel .first po co = some (.ok .first)) ∧
    (∀ M m p c f ph', attemptMatchUfcs M fuel (.second m) p c f = some (.ok ph') →
      attemptMatchUfcs M fuel .first p c f = some (.ok .first)) ∧
    (∀ M m pa ca ph', ufcsArgLoop M fuel (.second m) pa ca = some (.ok ph') →
      ufcsArgLoop M fuel .first pa ca = some (.ok .first)) := by
  intro fuel
  induction fuel with
  | zero =>
    refine ⟨?_, ?_, ?_, ?_, ?_, ?_, ?_, ?_, ?_, ?_, ?_, ?_, ?_⟩ <;>
      intro M m <;> intros <;> simp_all [attemptMatchNode, attemptMatchNodeKinded,
        attemptMatchNodeChildren, attemptMatchSequences, attemptMatchRecordFieldList,
        recordFieldLoop, attemptMatchTokenTree, attemptMatchTokenTreeGo, scanPlaceholder,
        attemptMatchPath, attemptMatchOpt, attemptMatchUfcs, ufcsArgLoop]
  | succ fuel ih =>
    obtain ⟨ihNode, ihKinded, ihChildren, ihSeq, ihRFL, ihLoop, ihTT, ihGo, ihScan,
      ihPath, ihOpt, ihUfcs, ihArgs⟩ := ih
    obtain ⟨psNode, psKinded, psChildren, psSeq, psRFL, psLoop, psTT, psGo, psScan,
      psPath, psOpt, psUfcs, psArgs⟩ := phaseStepAll fuel
    refine ⟨?_, ?_, ?_, ?_, ?_, ?_, ?_, ?_, ?_, ?_, ?_, ?_, ?_⟩
    -- attemptMatchNode
    · intro M m p c ph' h
      rw [attemptMatchNode] at h
      rw [attemptMatchNode]
      cases hpl : M.getPlaceholder (SyntaxElement.node p) with
      | some placeholder =>
        rw [hpl] at h
        dsimp only at h ⊢
        cases hc : checkConstraints placeholder.constraints c with
        | error e => rw [hc] at h; simp at h
        | ok u =>
          rw [hc] at h
      | none =>
        rw [hpl] at h
        dsimp only at h ⊢
        cases hlk : lookupNode M.rule.pattern.ufcsFunctionCalls p with
        | some f =>
          rw [hlk] at h
          dsimp only at h ⊢
          by_cases hck : p.kind = SyntaxKind.callExpr ∧ c.kind = SyntaxKind.methodCallExpr
          · rw [if_pos hck] at h
            rw [if_pos hck]
            exact ihUfcs _ _ _ _ _ _ h
          · rw [if_neg hck] at h
            rw [if_neg hck]
            exact ihKinded _ _ _ _ _ h
        | none =>
          rw [hlk] at h
          dsimp only at h ⊢
          exact ihKinded _ _ _ _ _ h
    -- attemptMatchNodeKinded
    · intro M m p c ph' h
      rw [attemptMatchNodeKinded] at h
      rw [attemptMatchNodeKinded]
      by_cases hne : p.kind ≠ c.kind
      · rw [if_pos hne] at h; simp at h
      · rw [if_neg hne] at h
        rw [if_neg hne]
        revert h
        cases hck : c.kind <;> intro h <;> dsimp only at h ⊢ <;>
          first
            | exact ihRFL _ _ _ _ _ h
            | exact ihTT _ _ _ _ _ h
            | exact ihPath _ _ _ _ _ h
            | exact ihChildren _ _ _ _ _ h
    -- attemptMatchNodeChildren
    · intro M m p c ph' h
      rw [attemptMatchNodeChildren] at h
      rw [attemptMatchNodeChildren]
      exact ihSeq _ _ _ _ _ h
    -- attemptMatchSequences
    · intro M m pat ce ph' h
      rw [attemptMatchSequences] at h
      rw [attemptMatchSequences]
      rcases hnn : Phase.nextNonTrivial (.second m) ce with ⟨ph1, copt, rest⟩
      rw [hnn] at h
      obtain ⟨⟨m1, hm1⟩, hfst⟩ := nextNonTrivial_agree ce m ph1 copt rest hnn
      subst hm1
      rw [hfst]
      cases copt with
      | none =>
        dsimp only at h ⊢
        cases pat with
        | nil => rfl
        | cons pe prest => simp at h
      | some el =>
        cases el with
        | token c =>
          dsimp only at h ⊢
          cases hat : attemptMatchToken (.second m1) pat c with
          | error e => rw [hat] at h; simp at h
          | ok pr =>
            obtain ⟨ph2, pat2⟩ := pr
            rw [hat] at h
            dsimp only at h
            obtain ⟨⟨m2, hm2⟩, hatF⟩ := attemptMatchToken_agree pat c m1 ph2 pat2 hat
            subst hm2
            rw [hatF]
            dsimp only
            exact ihSeq _ _ _ _ _ h
        | node c =>
          dsimp only at h ⊢
          cases pat with
          | nil => simp at h
          | cons pe prest =>
            cases pe with
            | token pt => simp at h
            | node pn =>
              dsimp only at h ⊢
              cases hn : attemptMatchNode M fuel (.second m1) pn c with
              | none => rw [hn] at h; simp at h
              | some r =>
                cases r with
                | error e => rw [hn] at h; simp at h
                | ok ph2 =>
                  rw [hn] at h
                  dsimp only at h
                  obtain ⟨m2, hm2⟩ := (psNode _ _ _ _ _ hn).second_form
                  subst hm2
                  rw [ihNode _ _ _ _ _ hn]
                  dsimp only
                  exact ihSeq _ _ _ _ _ h
    -- attemptMatchRecordFieldList
    · intro M m p c ph' h
      rw [attemptMatchRecordFieldList] at h
      rw [attemptMatchRecordFieldList]
      exact ihLoop _ _ _ _ _ _ _ h
    -- recordFieldLoop
    · intro M m p c pe fs ph' h
      rw [recordFieldLoop.eq_def] at h
      rw [recordFieldLoop.eq_def]
      dsimp only at h ⊢
      cases pe with
      | nil =>
        cases fs with
        | nil => rfl
        | cons f fs' => simp at h
      | cons e rest =>
        cases e with
        | token t => exact ihLoop _ _ _ _ _ _ _ h
        | node pn =>
          dsimp only at h ⊢
          cases hfc : pn.firstChildOrToken with
          | none =>
            rw [hfc] at h
            exact ihLoop _ _ _ _ _ _ _ h
          | some nameElement =>
            rw [hfc] at h
            dsimp only at h ⊢
            by_cases hips : (M.getPlaceholder nameElement).isSome
            · rw [if_pos hips] at h
              rw [if_pos hips]
              exact ihChildren _ _ _ _ _ h
            · rw [if_neg hips] at h
              rw [if_neg hips]
              cases hio : onlyIdent nameElement with
              | none =>
                rw [hio] at h
                exact ihLoop _ _ _ _ _ _ _ h
              | some ident =>
                rw [hio] at h
                dsimp only at h ⊢
                cases hrm : removeAssoc fs ident.text with
                | none => rw [hrm] at h; simp at h
                | some pr =>
                  obtain ⟨codeRecord, fs'⟩ := pr
                  rw [hrm] at h
                  dsimp only at h ⊢
                  cases hn : attemptMatchNode M fuel (.second m) pn codeRecord with
                  | none => rw [hn] at h; simp at h
                  | some r =>
                    cases r with
                    | error e2 => rw [hn] at h; simp at h
                    | ok ph1 =>
                      rw [hn] at h
                      dsimp only at h
                      obtain ⟨m1, hm1⟩ := (psNode _ _ _ _ _ hn).second_form
                      subst hm1
                      rw [ihNode _ _ _ _ _ hn]
                      dsimp only
                      exact ihLoop _ _ _ _ _ _ _ h
    -- attemptMatchTokenTree
    · intro M m p c ph' h
      rw [attemptMatchTokenTree] at h
      rw [attemptMatchTokenTree]
      exact ihGo _ _ _ _ _ _ h
    -- attemptMatchTokenTreeGo
    · intro M m pat ch fid ph' h
      rw [attemptMatchTokenTreeGo_succ] at h
      rw [attemptMatchTokenTreeGo_succ]
      cases ch with
      | nil =>
        cases pat with
        | nil => rfl
        | cons pe prest => simp at h
      | cons child rest =>
        dsimp only at h ⊢
        cases hpl : pat.head?.bind fun pp => M.getPlaceholder pp with
        | some placeholder =>
          rw [hpl] at h
          dsimp only at h ⊢
          cases hscan : scanPlaceholder M fuel (.second m) pat.tail rest
              (nextPatternTokenText pat.tail.head?) child with
          | none => rw [hscan] at h; simp at h
          | some r =>
            cases r with
            | error e => rw [hscan] at h; simp at h
            | ok q =>
              obtain ⟨ph1, pat', rest', lastM⟩ := q
              rw [hscan] at h
              dsimp only at h
              obtain ⟨m1, hm1⟩ :=
                (psScan _ _ _ _ _ _ _ _ _ _ hscan).second_form
              subst hm1
              rw [ihScan _ _ _ _ _ _ _ _ _ _ hscan]
              dsimp only [Phase.recordTokenRange] at h ⊢
              exact ihGo _ _ _ _ _ _ h
        | none =>
          rw [hpl] at h
          dsimp only at h ⊢
          cases child with
          | token t =>
            dsimp only at h ⊢
            cases hat : attemptMatchToken (.second m) pat t with
            | error e => rw [hat] at h; simp at h
            | ok pr =>
              obtain ⟨ph1, pat2⟩ := pr
              rw [hat] at h
              dsimp only at h
              obtain ⟨⟨m1, hm1⟩, hatF⟩ := attemptMatchToken_agree pat t m ph1 pat2 hat
              subst hm1
              rw [hatF]
              dsimp only
              exact ihGo _ _ _ _ _ _ h
          | node n =>
            dsimp only at h ⊢
            cases pat with
            | nil => simp at h
            | cons pe prest =>
              cases pe with
              | token pt => simp at h
              | node pn =>
                dsimp only at h ⊢
                cases htt : attemptMatchTokenTree M fuel (.second m) pn n with
                | none => rw [htt] at h; simp at h
                | some r =>
                  cases r with
                  | error e => rw [htt] at h; simp at h
                  | ok ph1 =>
                    rw [htt] at h
                    dsimp only at h
                    obtain ⟨m1, hm1⟩ := (psTT _ _ _ _ _ htt).second_form
                    subst hm1
                    rw [ihTT _ _ _ _ _ htt]
                    dsimp only
                    exact ihGo _ _ _ _ _ _ h
    -- scanPlaceholder
    · intro M m pat ch tok lst ph1 pat' rest' last' h
      rw [scanPlaceholder_succ] at h
      rw [scanPlaceholder_succ]
      cases ch with
      | nil =>
        dsimp only at h ⊢
        injection h with h1
        injection h1 with h1
        injection h1 with h1 h2
        injection h2 with h2 h3
        injection h3 with h3 h4
        subst h2; subst h3; subst h4
        rfl
      | cons next rest =>
        cases next with
        | token t =>
          dsimp only at h ⊢
          by_cases hstop : (some t.text : Option String) = tok
          · rw [if_pos hstop] at h
            rw [if_pos hstop]
            injection h with h1
            injection h1 with h1
            injection h1 with h1 h2
            injection h2 with h2 h3
            injection h3 with h3 h4
            subst h2; subst h3; subst h4
            rfl
          · rw [if_neg hstop] at h
            rw [if_neg hstop]
            exact ihScan _ _ _ _ _ _ _ _ _ _ h
        | node n =>
          dsimp only at h ⊢
          cases hft : n.firstToken with
          | none =>
            rw [hft] at h
            exact ihScan _ _ _ _ _ _ _ _ _ _ h
          | some ft =>
            rw [hft] at h
            dsimp only at h ⊢
            by_cases hstop : (some ft.text : Option String) = tok
            · rw [if_pos hstop] at h
              rw [if_pos hstop]
              cases pat with
              | nil => exact ihScan _ _ _ _ _ _ _ _ _ _ h
              | cons pe prest =>
                cases pe with
                | token pt => exact ihScan _ _ _ _ _ _ _ _ _ _ h
                | node pn =>
                  dsimp only at h ⊢
                  cases htt : attemptMatchTokenTree M fuel (.second m) pn n with
                  | none => rw [htt] at h; simp at h
                  | some r =>
                    cases r with
                    | error e => rw [htt] at h; simp at h
                    | ok phX =>
                      rw [htt] at h
                      dsimp only at h
                      rw [ihTT _ _ _ _ _ htt]
                      dsimp only
                      injection h with h1
                      injection h1 with h1
                      injection h1 with h1 h2
                      injection h2 with h2 h3
                      injection h3 with h3 h4
                      subst h2; subst h3; subst h4
                      rfl
            · rw [if_neg hstop] at h
              rw [if_neg hstop]
              exact ihScan _ _ _ _ _ _ _ _ _ _ h
    -- attemptMatchPath
    · intro M m p c ph' h
      rw [attemptMatchPath] at h
      rw [attemptMatchPath]
      cases hlk : lookupNode M.rule.pattern.resolvedPaths p with
      | none =>
        rw [hlk] at h
        exact ihChildren _ _ _ _ _ h
      | some patternResolved =>
        rw [hlk] at h
        dsimp only at h ⊢
        cases hs1 : pathSegment p with
        | none =>
          rw [hs1] at h
        | some ps =>
          rw [hs1] at h
          cases hs2 : pathSegment c with
          | none =>
            rw [hs2] at h
          | some cs =>
            rw [hs2] at h
            dsimp only at h ⊢
            cases ho1 : attemptMatchOpt M fuel (.second m) (segmentTypeArgList ps)
                (segmentTypeArgList cs) with
            | none => rw [ho1] at h; simp at h
            | some r1 =>
              cases r1 with
              | error e => rw [ho1] at h; simp at h
              | ok phA =>
                rw [ho1] at h
                dsimp only at h
                obtain ⟨mA, hma⟩ := (psOpt _ _ _ _ _ ho1).second_form
                subst hma
                rw [ihOpt _ _ _ _ _ ho1]
                dsimp only
                cases ho2 : attemptMatchOpt M fuel (.second mA) (segmentParamList ps)
                    (segmentParamList cs) with
                | none => rw [ho2] at h; simp at h
                | some r2 =>
                  cases r2 with
                  | error e => rw [ho2] at h; simp at h
                  | ok phB =>
                    rw [ho2] at h
                    dsimp only at h
                    obtain ⟨mB, hmb⟩ := (psOpt _ _ _ _ _ ho2).second_form
                    subst hmb
                    rw [ihOpt _ _ _ _ _ ho2]
    -- attemptMatchOpt
    · intro M m po co ph' h
      rw [attemptMatchOpt.eq_def] at h
      rw [attemptMatchOpt.eq_def]
      dsimp only at h ⊢
      cases po <;> cases co <;> (try dsimp only at h ⊢)
      · simp at h
      · simp at h
      · exact ihNode _ _ _ _ _ h
    -- attemptMatchUfcs
    · intro M m p c f ph' h
      rw [attemptMatchUfcs] at h
      rw [attemptMatchUfcs]
      cases hr : M.sema.resolveMethodCall c with
      | none => rw [hr] at h; simp at h
      | some g =>
        rw [hr] at h
        dsimp only at h ⊢
        by_cases hg : f ≠ g
        · rw [if_pos hg] at h; simp at h
        · rw [if_neg hg] at h
          rw [if_neg hg]
          cases hal : argList p with
          | none => rw [hal] at h; simp at h
          | some pArgList =>
            rw [hal] at h
            dsimp only at h ⊢
            cases ho : attemptMatchOpt M fuel (.second m) (argListArgs pArgList).head?
                (methodCallReceiver c) with
            | none => rw [ho] at h; simp at h
            | some r =>
              cases r with
              | error e => rw [ho] at h; simp at h
              | ok ph1 =>
                rw [ho] at h
                dsimp only at h
                obtain ⟨m1, hm1⟩ := (psOpt _ _ _ _ _ ho).second_form
                subst hm1
                rw [ihOpt _ _ _ _ _ ho]
                dsimp only
                cases hcl : argList c with
                | none => rw [hcl] at h; simp at h
                | some cArgList =>
                  rw [hcl] at h
                  dsimp only at h ⊢
                  exact ihArgs _ _ _ _ _ h
    -- ufcsArgLoop
    · intro M m pa ca ph' h
      rw [ufcsArgLoop.eq_def] at h
      rw [ufcsArgLoop.eq_def]
      dsimp only at h ⊢
      rcases pa with _ | ⟨pp, ps⟩ <;> rcases ca with _ | ⟨cc, cs⟩ <;> (try dsimp only at h ⊢)
      · simp only [List.head?, List.tail] at h ⊢
        cases ho : attemptMatchOpt M fuel (.second m) none (some cc) with
        | none => rw [ho] at h; simp at h
        | some r =>
          cases r with
          | error e => rw [ho] at h; simp at h
          | ok ph1 => exact absurd ho (attemptMatchOpt_none_some M fuel _ cc ph1)
      · simp only [List.head?, List.tail] at h ⊢
        cases ho : attemptMatchOpt M fuel (.second m) (some pp) none with
        | none => rw [ho] at h; simp at h
        | some r =>
          cases r with
          | error e => rw [ho] at h; simp at h
          | ok ph1 => exact absurd ho (attemptMatchOpt_some_none M fuel _ pp ph1)
      · simp only [List.head?, List.tail] at h ⊢
        cases ho : attemptMatchOpt M fuel (.second m) (some pp) (some cc) with
        | none => rw [ho] at h; simp at h
        | some r =>
          cases r with
          | error e => rw [ho] at h; simp at h
          | ok ph1 =>
            rw [ho] at h
            dsimp only at h
            obtain ⟨m1, hm1⟩ := (psOpt _ _ _ _ _ ho).second_form
            subst hm1
            rw [ihOpt _ _ _ _ _ ho]
            dsimp only
            exact ihArgs _ _ _ _ _ h

/-! ### C1: phase agreement and its amendment -/

/-- A concrete `Match` accumulator used to instantiate the second phase. -/
def c1m0 : MatchResult :=
  { range := ⟨1, ⟨0, 0⟩⟩
    matchedNode := codeFoo1
    placeholderValues := []
    ignoredComments := []
    ruleIndex := 0
    depth := 0
    renderedTemplatePaths := [] }

/-- Counterexample to C1 as stated: under a supplied restriction range, a
rule with no recorded path resolutions (`resolvedPaths = []`) and a semantic
service that never resolves any path, the non-recording first phase accepts
a bare-placeholder match that the recording second phase rejects. The
rejection comes from restrict-range validation of the placeholder binding,
performed only in the second phase - not from any semantic-resolution
check, so phase-verdict divergence is not limited to resolution calls. -/
theorem c1_counterexample :
    attemptMatchNode ⟨plainSema, some ⟨2, ⟨0, 100⟩⟩, plainRule barePlaceholderPat⟩ 5
        .first barePlaceholderPat codeFoo1 = some (.ok .first) ∧
    attemptMatchNode ⟨plainSema, some ⟨2, ⟨0, 100⟩⟩, plainRule barePlaceholderPat⟩ 5
        (.second c1m0) barePlaceholderPat codeFoo1 = some (.error ⟨none⟩) ∧
    (plainRule barePlaceholderPat).pattern.resolvedPaths = [] ∧
    (∀ n, plainSema.resolvePath n = none) :=
  ⟨rfl, rfl, rfl, fun _ => rfl⟩

/-- Claim C1 (amended): for every matcher state (rule, restriction range,
semantic service), fuel, accumulator and (pattern, candidate) pair, whenever
the recording second-phase traversal accepts, the non-recording first-phase
traversal accepts as well; the converse may fail owing to checks performed
only in the second phase - semantic path resolution and its comparison
against the pattern's recorded target, and restrict-range validation of
placeholder bindings. -/
theorem c1_phase_refinement (M : Matcher) (fuel : Nat) (m : MatchResult)
    (p c : SyntaxNode) (ph' : Phase)
    (h : attemptMatchNode M fuel (.second m) p c = some (.ok ph')) :
    attemptMatchNode M fuel .first p c = some (.ok .first) :=
  (phaseTwoRefinesPhaseOne fuel).1 M m p c ph' h

/-- Witness for C1: a concrete second-phase success (a bare placeholder
binding the candidate, no restriction range) whose first-phase run the
theorem shows accepted. -/
theorem c1_phase_refinement_witness :
    attemptMatchNode (plainMatcher barePlaceholderPat) 5 .first
      barePlaceholderPat codeFoo1 = some (.ok .first) :=
  c1_phase_refinement (plainMatcher barePlaceholderPat) 5 c1m0
    barePlaceholderPat codeFoo1
    (.second (c1m0.insertPlaceholderValue "a"
      (PlaceholderMatch.new codeFoo1 (plainSema.originalRange codeFoo1))))
    (by rfl)

end Ssr
